import Mathlib

/-!
Shallow embedding of the `mcp-ace` incremental indexing engine (`IndexManager`
in the TypeScript source) and proofs about its specification claims.

Conventions of the embedding:
* Machine words are `Nat` with explicit `% 2^32` where overflow matters.
* Filesystem / network effects are passed in explicitly: the result of
  `collectFiles` is an `Except` value, the per-batch per-attempt HTTP outcomes
  are a function `Nat → Nat → Except JsError …`, and the success of
  `saveProjects` is a `Bool`.
* JavaScript `Map`/`Set`/object semantics (insertion order, replace-in-place)
  are modelled with association lists.
* All definitions are structurally recursive so that concrete runs reduce
  inside the kernel.
-/

set_option maxRecDepth 100000

namespace McpAce

deriving instance DecidableEq for Except

/-! ### SHA-256 (`crypto.createHash('sha256')`), used by `calculateHash` -/

/-- 2^32, the word modulus of SHA-256. -/
def M32 : Nat := 4294967296

def add32 (a b : Nat) : Nat := (a + b) % M32

def rotr32 (n x : Nat) : Nat := (x >>> n) ||| ((x <<< (32 - n)) % M32)

def not32 (x : Nat) : Nat := x ^^^ 4294967295

def bigS0 (x : Nat) : Nat := rotr32 2 x ^^^ rotr32 13 x ^^^ rotr32 22 x
def bigS1 (x : Nat) : Nat := rotr32 6 x ^^^ rotr32 11 x ^^^ rotr32 25 x
def smallS0 (x : Nat) : Nat := rotr32 7 x ^^^ rotr32 18 x ^^^ (x >>> 3)
def smallS1 (x : Nat) : Nat := rotr32 17 x ^^^ rotr32 19 x ^^^ (x >>> 10)

def chFn (x y z : Nat) : Nat := (x &&& y) ^^^ (not32 x &&& z)
def majFn (x y z : Nat) : Nat := (x &&& y) ^^^ (x &&& z) ^^^ (y &&& z)

/-- SHA-256 round constants (fractional parts of cube roots of the first 64
primes, FIPS 180-4; checked against the standard test vectors below). -/
def K256 : List Nat :=
  [1116352408, 1899447441, 3049323471, 3921009573, 961987163, 1508970993,
   2453635748, 2870763221, 3624381080, 310598401, 607225278, 1426881987,
   1925078388, 2162078206, 2614888103, 3248222580, 3835390401, 4022224774,
   264347078, 604807628, 770255983, 1249150122, 1555081692, 1996064986,
   2554220882, 2821834349, 2952996808, 3210313671, 3336571891, 3584528711,
   113926993, 338241895, 666307205, 773529912, 1294757372, 1396182291,
   1695183700, 1986661051, 2177026350, 2456956037, 2730485921, 2820302411,
   3259730800, 3345764771, 3516065817, 3600352804, 4094571909, 275423344,
   430227734, 506948616, 659060556, 883997877, 958139571, 1322822218,
   1537002063, 1747873779, 1955562222, 2024104815, 2227730452, 2361852424,
   2428436474, 2756734187, 3204031479, 3329325298]

/-- SHA-256 initial hash values (fractional parts of square roots of the first
8 primes, FIPS 180-4). -/
def H256 : List Nat :=
  [1779033703, 3144134277, 1013904242, 2773480762, 1359893119, 2600822924,
   528734635, 1541459225]

/-- Big-endian 8-byte encoding of the bit length. -/
def be64 (v : Nat) : List Nat := (List.range 8).map (fun i => (v >>> (56 - 8 * i)) % 256)

/-- SHA-256 padding: `0x80`, zeros to 56 mod 64, then the 64-bit bit length. -/
def padBytes (msg : List Nat) : List Nat :=
  let L := msg.length
  let z := (64 + 56 - ((L + 1) % 64)) % 64
  msg ++ [128] ++ List.replicate z 0 ++ be64 (8 * L)

/-- Group bytes into 32-bit big-endian words. -/
def bytesToWords : List Nat → List Nat
  | b0 :: b1 :: b2 :: b3 :: rest =>
    (((b0 * 256 + b1) * 256 + b2) * 256 + b3) :: bytesToWords rest
  | _ => []

/-- Extend the 16 block words to 64 schedule words; `ws` holds the words
produced so far, most recent first. -/
def scheduleGo (ws : List Nat) : Nat → List Nat
  | 0 => ws.reverse
  | fuel + 1 =>
    let w2 := ws.getD 1 0
    let w7 := ws.getD 6 0
    let w15 := ws.getD 14 0
    let w16 := ws.getD 15 0
    scheduleGo (((smallS1 w2 + w7 + smallS0 w15 + w16) % M32) :: ws) fuel

def schedule (block16 : List Nat) : List Nat := scheduleGo block16.reverse 48

/-- One SHA-256 round on the state `[a,b,c,d,e,f,g,h]`, fed `k + w`. -/
def roundFn (st : List Nat) (kw : Nat) : List Nat :=
  match st with
  | [a, b, c, d, e, f, g, h] =>
    let t1 := (h + bigS1 e + chFn e f g + kw) % M32
    let t2 := (bigS0 a + majFn a b c) % M32
    [(t1 + t2) % M32, a, b, c, (d + t1) % M32, e, f, g]
  | other => other

/-- Compress one 64-byte block into the running hash state. -/
def compressBlock (hs : List Nat) (block : List Nat) : List Nat :=
  let ws := schedule (bytesToWords block)
  let st := (List.zipWith (fun k w => (k + w) % M32) K256 ws).foldl roundFn hs
  List.zipWith add32 hs st

/-- Split a (padded) byte list into 64-byte blocks. -/
def chunk64 (bs : List Nat) : List (List Nat) :=
  (List.range (bs.length / 64)).map (fun i => (bs.drop (64 * i)).take 64)

def hexDigit (n : Nat) : Char := "0123456789abcdef".toList.getD n '0'

/-- The 8 lowercase hex digits of a 32-bit word, big-endian. -/
def toHex8 (w : Nat) : String :=
  String.mk ((List.range 8).map (fun i => hexDigit ((w >>> (28 - 4 * i)) % 16)))

/-- SHA-256 digest of a byte sequence, as a lowercase hex string. -/
def sha256Hex (msg : List Nat) : String :=
  let hs := (chunk64 (padBytes msg)).foldl compressBlock H256
  String.join (hs.map toHex8)

/-- UTF-8 bytes of a string (`String.toUTF8` unfolded to its byte list). -/
def utf8Bytes (s : String) : List Nat :=
  (s.data.flatMap String.utf8EncodeChar).map (fun b => b.toNat)

/-- `IndexManager.calculateHash`: `hasher.update(filePath); hasher.update(content);
hasher.digest('hex')`.  Incremental hashing digests the byte concatenation of the
two UTF-8 encoded strings. -/
def calculateHash (filePath content : String) : String :=
  sha256Hex (utf8Bytes filePath ++ utf8Bytes content)

/-! ### Blobs, line splitting and the chunker (`IndexManager.splitFileContent`) -/

/-- `Blob` from `types.ts`: path, content, and the hash once computed. -/
structure Blob where
  path : String
  content : String
  hash : Option String
deriving DecidableEq

/-- Split a character list at every occurrence of `sep`
(JavaScript `String.prototype.split` with a single-character separator:
`"".split(sep)` is `[""]`, separators at the end produce a trailing `""`). -/
def splitOnChar (sep : Char) : List Char → List (List Char)
  | [] => [[]]
  | c :: cs =>
    if c = sep then [] :: splitOnChar sep cs
    else
      match splitOnChar sep cs with
      | [] => [[c]]
      | g :: gs => (c :: g) :: gs

/-- `content.split('\n')`. -/
def splitLines (s : String) : List String := (splitOnChar '\n' s.data).map String.mk

/-- `lines.join('\n')`. -/
def joinNl : List String → String
  | [] => ""
  | [x] => x
  | x :: y :: rest => x ++ "\n" ++ joinNl (y :: rest)

/-- Nat ceiling division, `Math.ceil(a / b)` for nonnegative integers. -/
def ceilDiv (a b : Nat) : Nat := (a + b - 1) / b

/-- `IndexManager.splitFileContent`: within the limit return one `Blob`
unchanged, else split the lines into `ceil(total / maxLinesPerBlob)` groups,
naming chunk `i` (1-indexed) `<path>#chunk<i>of<n>`. -/
def splitFileContent (maxLinesPerBlob : Nat) (filePath content : String) : List Blob :=
  let lines := splitLines content
  let totalLines := lines.length
  if totalLines ≤ maxLinesPerBlob then [⟨filePath, content, none⟩]
  else
    let numChunks := ceilDiv totalLines maxLinesPerBlob
    (List.range numChunks).map (fun i =>
      let start := i * maxLinesPerBlob
      let stop := min (start + maxLinesPerBlob) totalLines
      let chunkLines := (lines.drop start).take (stop - start)
      ⟨filePath ++ "#chunk" ++ toString (i + 1) ++ "of" ++ toString numChunks,
        joinNl chunkLines, none⟩)

/-! ### Exclusion matching (`IndexManager.shouldExclude` / `matchPattern`)

`matchPattern` translates the glob-like pattern into a JavaScript regex by
escaping `.`, turning `*` into `.*` and `?` into `.`, then tests the anchored
regex.  We embed the regex fragment that this translation can produce over
patterns made of ordinary characters: sequences of atoms (a literal or `.`)
with an optional `*` or `+` quantifier.  JavaScript metacharacters that the
translation leaves unescaped and that are outside this fragment
(`( ) [ ] { } ^ $ | \`) are not modelled; all theorems below restrict
patterns accordingly. -/

inductive RAtom where
  | any : RAtom
  | lit : Char → RAtom
deriving DecidableEq

inductive RQuant where
  | one : RQuant
  | star : RQuant
  | plus : RQuant
deriving DecidableEq

/-- `pattern.replace(/\./g, '\\.').replace(/\*/g, '.*').replace(/\?/g, '.')`,
as a per-character expansion (the three passes never rewrite each other's
output). -/
def translateChar (c : Char) : List Char :=
  if c = '.' then ['\\', '.']
  else if c = '*' then ['.', '*']
  else if c = '?' then ['.']
  else [c]

def translateGlob (p : List Char) : List Char := p.flatMap translateChar

def atomOf (c : Char) : RAtom := if c = '.' then RAtom.any else RAtom.lit c

/-- Parse the translated regex into a sequence of quantified atoms.  `none`
models a `SyntaxError` thrown by `new RegExp` (e.g. a leading quantifier). -/
def parseRegex : List Char → Option (List (RAtom × RQuant))
  | [] => some []
  | '*' :: _ => none
  | '+' :: _ => none
  | ['\\'] => none
  | '\\' :: c :: '*' :: rest => (parseRegex rest).map (fun its => (RAtom.lit c, RQuant.star) :: its)
  | '\\' :: c :: '+' :: rest => (parseRegex rest).map (fun its => (RAtom.lit c, RQuant.plus) :: its)
  | '\\' :: c :: rest => (parseRegex rest).map (fun its => (RAtom.lit c, RQuant.one) :: its)
  | c :: '*' :: rest => (parseRegex rest).map (fun its => (atomOf c, RQuant.star) :: its)
  | c :: '+' :: rest => (parseRegex rest).map (fun its => (atomOf c, RQuant.plus) :: its)
  | c :: rest => (parseRegex rest).map (fun its => (atomOf c, RQuant.one) :: its)

def matchAtom : RAtom → Char → Bool
  | RAtom.any, _ => true
  | RAtom.lit c, d => d == c

/-- Anchored regex matching with backtracking.  `fuel` only drives structural
recursion; every step shrinks `items.length + s.length`, so the initial fuel
`items.length + s.length + 1` is never exhausted. -/
def reMatchFuel : Nat → List (RAtom × RQuant) → List Char → Bool
  | 0, _, _ => false
  | _ + 1, [], s => s.isEmpty
  | fuel + 1, (a, RQuant.one) :: rest, s =>
    match s with
    | [] => false
    | c :: cs => matchAtom a c && reMatchFuel fuel rest cs
  | fuel + 1, (a, RQuant.star) :: rest, s =>
    reMatchFuel fuel rest s ||
      (match s with
       | [] => false
       | c :: cs => matchAtom a c && reMatchFuel fuel ((a, RQuant.star) :: rest) cs)
  | fuel + 1, (a, RQuant.plus) :: rest, s =>
    match s with
    | [] => false
    | c :: cs => matchAtom a c && reMatchFuel fuel ((a, RQuant.star) :: rest) cs

def reMatch (items : List (RAtom × RQuant)) (s : List Char) : Bool :=
  reMatchFuel (items.length + s.length + 1) items s

/-- `IndexManager.matchPattern`: translate, compile (`none` = thrown
`SyntaxError`), and test the `^...$`-anchored regex. -/
def matchPatternE (str pattern : String) : Option Bool :=
  (parseRegex (translateGlob pattern.data)).map (fun items => reMatch items str.data)

/-- The inner per-pattern loop over the path segments; `none` propagates a
thrown exception. -/
def orParts (pattern : String) : List String → Option Bool
  | [] => some false
  | part :: rest =>
    match matchPatternE part pattern with
    | none => none
    | some true => some true
    | some false => orParts pattern rest

/-- The pattern loop of `shouldExclude`: each pattern is tested against every
path segment, then against the full relative path. -/
def excludeE (parts : List String) (relPath : String) : List String → Option Bool
  | [] => some false
  | pattern :: rest =>
    match orParts pattern parts with
    | none => none
    | some true => some true
    | some false =>
      match matchPatternE relPath pattern with
      | none => none
      | some true => some true
      | some false => excludeE parts relPath rest

/-- `IndexManager.shouldExclude`.  The `try`/`catch` returns `false` on any
thrown error; `relativePathE = none` models `path.relative` failing, and a
`none` from the pattern loop models a `RegExp` syntax error. -/
def shouldExclude (relativePathE : Option String) (excludePatterns : List String) : Bool :=
  match relativePathE with
  | none => false
  | some rel =>
    let parts := (splitOnChar '/' rel.data).map String.mk
    (excludeE parts rel excludePatterns).getD false

/-- The spec's reading of a pattern: an anchored full-string glob where `*`
matches any run of characters and `?` any single character; all other
characters are literal.  (Fuel as in `reMatchFuel`.) -/
def globMatchFuel : Nat → List Char → List Char → Bool
  | 0, _, _ => false
  | _ + 1, [], s => s.isEmpty
  | fuel + 1, '*' :: ps, s =>
    globMatchFuel fuel ps s ||
      (match s with
       | [] => false
       | _ :: cs => globMatchFuel fuel ('*' :: ps) cs)
  | fuel + 1, '?' :: ps, s =>
    match s with
    | [] => false
    | _ :: cs => globMatchFuel fuel ps cs
  | fuel + 1, c :: ps, s =>
    match s with
    | [] => false
    | d :: cs => (d == c) && globMatchFuel fuel ps cs

/-- Modelled from the spec's words (§4.1): anchored glob match of a pattern
against a string. -/
def globMatch (pattern str : String) : Bool :=
  globMatchFuel (pattern.length + str.length + 1) pattern.data str.data

/-- `DEFAULT_CONFIG.excludePatterns` from `config.ts`. -/
def defaultExcludePatterns : List String :=
  ["node_modules", ".git", ".venv", "venv", "__pycache__", ".pytest_cache",
   ".mypy_cache", "dist", "build", "out", ".next", ".nuxt", "coverage",
   ".DS_Store", "*.pyc", "*.pyo", "*.pyd", ".env", ".env.*"]

/-! ### Retry policy (`IndexManager.retryRequest`) -/

/-- The observable shape of a JavaScript error as classified by
`retryRequest`: whether `axios.isAxiosError(error)`, its `code`, its
`response?.status`, and its `message`. -/
structure JsError where
  isAxiosError : Bool
  code : Option String
  status : Option Nat
  message : String
deriving DecidableEq

/-- The `isRetryable` classification inside `retryRequest` (only consulted
when `axios.isAxiosError(error)`). -/
def isRetryableError (e : JsError) : Bool :=
  e.code == some "ECONNABORTED" || e.code == some "ETIMEDOUT" ||
  e.code == some "ECONNREFUSED" || e.status == some 429 ||
  decide (500 ≤ e.status.getD 0)

/-- Placeholder for `throw lastError` when `lastError === null`
(unreachable for `maxRetries ≥ 1`). -/
def nullError : JsError := ⟨false, none, none, "null"⟩

/-- The retry loop.  `fn attempt` is the outcome of the `attempt`-th call
(0-based); the returned list holds the waits (`retryDelay * 2^attempt`)
performed between attempts, in order. -/
def retryAux (fn : Nat → Except JsError α) (maxRetries retryDelay : Nat) :
    Nat → Nat → JsError → Except JsError α × List Nat
  | _attempt, 0, last => (Except.error last, [])
  | attempt, fuel + 1, _last =>
    match fn attempt with
    | Except.ok v => (Except.ok v, [])
    | Except.error e =>
      if e.isAxiosError && !isRetryableError e then (Except.error e, [])
      else
        let more := retryAux fn maxRetries retryDelay (attempt + 1) fuel e
        if attempt + 1 < maxRetries then (more.1, retryDelay * 2 ^ attempt :: more.2)
        else (more.1, more.2)

/-- `IndexManager.retryRequest` with options `{maxRetries, retryDelay}`. -/
def retryRequest (fn : Nat → Except JsError α) (maxRetries retryDelay : Nat) :
    Except JsError α × List Nat :=
  retryAux fn maxRetries retryDelay 0 maxRetries nullError

/-! ### The indexing pass (`IndexManager.indexProject`) -/

/-- `BatchUploadResponse` from `types.ts` (`blob_names` missing is modelled
as `[]`; both fail the `blob_names && blob_names.length > 0` check). -/
structure BatchUploadResponse where
  blob_names : List String
deriving DecidableEq

/-- `SearchResponse` from `types.ts` (`formatted_retrieval` missing is
modelled as `""`; both fail the `|| ''` truthiness check). -/
structure SearchResponse where
  formatted_retrieval : String
deriving DecidableEq

inductive IStatus where
  | success : IStatus
  | partialSuccess : IStatus
  | error : IStatus
deriving DecidableEq

structure IndexStats where
  totalBlobs : Nat
  existingBlobs : Nat
  newBlobs : Nat
  skippedBlobs : Nat
deriving DecidableEq

/-- `IndexResult` from `types.ts`. -/
structure IndexResult where
  status : IStatus
  message : String
  projectPath : Option String
  failedBatches : Option (List Nat)
  stats : Option IndexStats
deriving DecidableEq

/-- The persisted `projects.json` mapping, as an association list in JS
object key order. -/
abbrev ProjectsMap := List (String × List String)

def lookupProj (m : ProjectsMap) (k : String) : Option (List String) :=
  (List.find? (fun kv => kv.1 == k) m).map (fun kv => kv.2)

/-- `projects[key] = v`: replace in place if the key exists, else append. -/
def setProj (m : ProjectsMap) (k : String) (v : List String) : ProjectsMap :=
  if List.any m (fun kv => kv.1 == k) then
    List.map (fun kv => if kv.1 == k then (k, v) else kv) m
  else m ++ [(k, v)]

/-- `Map.prototype.set`: replace in place if the key exists, else append. -/
def insertHashed (m : List (String × Blob)) (h : String) (b : Blob) : List (String × Blob) :=
  if m.any (fun kv => kv.1 == h) then m.map (fun kv => if kv.1 == h then (h, b) else kv)
  else m ++ [(h, b)]

/-- Step 3 of `indexProject`: hash every blob, record the hash on the blob,
and key the blobs by hash (`blobHashMap`). -/
def buildBlobMap (blobs : List Blob) : List (String × Blob) :=
  blobs.foldl
    (fun m b =>
      let h := calculateHash b.path b.content
      insertHashed m h ⟨b.path, b.content, some h⟩)
    []

def mapKeys (m : List (String × Blob)) : List String := m.map (fun kv => kv.1)

def mapLookupBlob (m : List (String × Blob)) (h : String) : Blob :=
  ((List.find? (fun kv => kv.1 == h) m).map (fun kv => kv.2)).getD ⟨"", "", none⟩

/-- Step 4 of `indexProject`:
`unchanged = currentHashes.filter(h => existingHashes.has(h))`. -/
def unchangedHashes (existingHashes currentHashes : List String) : List String :=
  currentHashes.filter (fun h => existingHashes.contains h)

/-- Step 4 of `indexProject`:
`new = currentHashes.filter(h => !existingHashes.has(h))`. -/
def newHashes (existingHashes currentHashes : List String) : List String :=
  currentHashes.filter (fun h => !existingHashes.contains h)

/-- `blobsToUpload.slice(i * batchSize, min(i * batchSize + batchSize, length))`. -/
def batchSlice (l : List α) (batchSize i : Nat) : List α :=
  (l.drop (i * batchSize)).take (min (i * batchSize + batchSize) l.length - i * batchSize)

/-- Step 5 of `indexProject`: the sequential batch loop.  `attempts i j` is the
outcome of the `j`-th attempt of batch `i`'s upload request; each batch is
wrapped in `retryRequest(…, {maxRetries: 3, retryDelay: 1000})`.  Accumulates
`uploadedHashes` and the 1-based `failedBatches`. -/
def runBatches (attempts : Nat → Nat → Except JsError BatchUploadResponse)
    (totalBatches : Nat) : List String × List Nat :=
  (List.range totalBatches).foldl
    (fun acc batchIdx =>
      match (retryRequest (attempts batchIdx) 3 1000).1 with
      | Except.ok result =>
        if result.blob_names.length > 0 then (acc.1 ++ result.blob_names, acc.2)
        else (acc.1, acc.2 ++ [batchIdx + 1])
      | Except.error _ => (acc.1, acc.2 ++ [batchIdx + 1]))
    ([], [])

/-- `IndexManager.indexProject`.  Effects are explicit: `collected` is what
`collectFiles` produced (or threw), `projects` is the loaded store,
`attempts` the network outcomes, `saveOk` whether `saveProjects` succeeds.
Returns the `IndexResult` and the successfully saved mapping (`none` when
nothing was saved). -/
def indexProject (batchSize : Nat) (normalizedPath : String)
    (collected : Except String (List Blob)) (projects : ProjectsMap)
    (attempts : Nat → Nat → Except JsError BatchUploadResponse)
    (saveOk : Bool) (saveErrMsg : String) : IndexResult × Option ProjectsMap :=
  match collected with
  | Except.error msg => (⟨IStatus.error, msg, none, none, none⟩, none)
  | Except.ok blobs =>
    if blobs.length = 0 then
      (⟨IStatus.error, "项目中未找到文本文件", none, none, none⟩, none)
    else
      let existingHashes := (lookupProj projects normalizedPath).getD []
      let blobHashMap := buildBlobMap blobs
      let currentHashes := mapKeys blobHashMap
      let unchanged := unchangedHashes existingHashes currentHashes
      let newH := newHashes existingHashes currentHashes
      let blobsToUpload := newH.map (fun h => mapLookupBlob blobHashMap h)
      let totalBatches := ceilDiv blobsToUpload.length batchSize
      let res := runBatches attempts totalBatches
      let uploadedHashes := res.1
      let failedBatches := res.2
      let allHashes := unchanged ++ uploadedHashes
      let projects2 := setProj projects normalizedPath allHashes
      if saveOk then
        let status := if failedBatches.length = 0 then IStatus.success else IStatus.partialSuccess
        let message :=
          if blobsToUpload.length > 0 then
            "项目已索引，共 " ++ toString allHashes.length ++ " 个 blobs (已存在: " ++
              toString unchanged.length ++ ", 新增: " ++ toString uploadedHashes.length ++ ")"
          else
            "项目已索引，共 " ++ toString allHashes.length ++ " 个 blobs (全部已存在，无需上传)"
        (⟨status, message, some normalizedPath, some failedBatches,
          some ⟨allHashes.length, unchanged.length, uploadedHashes.length, unchanged.length⟩⟩,
         some projects2)
      else
        (⟨IStatus.error, saveErrMsg, none, none, none⟩, none)

/-! ### Search orchestration (`IndexManager.searchContext`) -/

def noResultsMessage : String := "未找到与您的查询相关的代码上下文"

/-- `IndexManager.searchContext`: re-index, reload the store, then run the
retrieval request under `retryRequest(…, {maxRetries: 3, retryDelay: 2000})`.
All exceptions are caught and rendered as `Error: `-prefixed strings. -/
def searchContext (batchSize : Nat) (normalizedPath : String)
    (collected : Except String (List Blob)) (projects : ProjectsMap)
    (attempts : Nat → Nat → Except JsError BatchUploadResponse)
    (saveOk : Bool) (saveErrMsg : String)
    (retrievalAttempts : Nat → Except JsError SearchResponse) : String :=
  let run := indexProject batchSize normalizedPath collected projects attempts saveOk saveErrMsg
  let indexResult := run.1
  if indexResult.status = IStatus.error then "Error: 索引失败. " ++ indexResult.message
  else
    let projectsAfter := run.2.getD projects
    let blobNames := (lookupProj projectsAfter normalizedPath).getD []
    if blobNames.length = 0 then "Error: 索引后未找到 blobs"
    else
      match (retryRequest retrievalAttempts 3 2000).1 with
      | Except.error e => "Error: " ++ e.message
      | Except.ok result =>
        let formattedRetrieval := result.formatted_retrieval
        if formattedRetrieval = "" then noResultsMessage else formattedRetrieval

/-- A string of the form `"Error:" ++ t`, the error channel of
`searchContext`. -/
def ErrorTagged (s : String) : Prop := ∃ t : String, s = "Error:" ++ t

/-! ### Concrete error values used in witnesses and counterexamples -/

def err503 : JsError := ⟨true, none, some 503, "Service Unavailable"⟩
def err404 : JsError := ⟨true, none, some 404, "Not Found"⟩
def errReset : JsError := ⟨true, some "ECONNRESET", none, "socket hang up"⟩

/-! ### Shared helper lemmas -/

lemma contains_iff_mem (l : List String) (a : String) : l.contains a = true ↔ a ∈ l := by
  rw [show l.contains a = l.elem a from rfl, List.elem_iff]

lemma take_min_clamp (l : List α) (s b : Nat) :
    (l.drop s).take (min (s + b) l.length - s) = (l.drop s).take b := by
  rcases le_or_lt (s + b) l.length with h | h
  · rw [min_eq_left h]
    congr 1
    omega
  · rw [min_eq_right (le_of_lt h), List.take_of_length_le, List.take_of_length_le]
    · rw [List.length_drop]
      omega
    · rw [List.length_drop]

lemma ceilDiv_le_mul (L k : Nat) (hk : 0 < k) : L ≤ ceilDiv L k * k := by
  have h1 := Nat.div_add_mod (L + k - 1) k
  have h2 : (L + k - 1) % k < k := Nat.mod_lt _ hk
  unfold ceilDiv
  rw [Nat.mul_comm]
  generalize hq : k * ((L + k - 1) / k) = m at h1 ⊢
  omega

lemma ceilDiv_pred_mul_lt (L k : Nat) (hk : 0 < k) (hL : 0 < L) :
    (ceilDiv L k - 1) * k < L := by
  have h1 := Nat.div_add_mod (L + k - 1) k
  have h2 : (L + k - 1) % k < k := Nat.mod_lt _ hk
  unfold ceilDiv
  rw [Nat.sub_mul, one_mul, Nat.mul_comm]
  generalize hq : k * ((L + k - 1) / k) = m at h1 ⊢
  omega

lemma flatten_chunks {α : Type} (k : Nat) (hk : 0 < k) :
    ∀ (n : Nat) (l : List α), l.length ≤ n * k →
      ((List.range n).map (fun i => (l.drop (i * k)).take k)).flatten = l := by
  intro n
  induction n with
  | zero =>
    intro l hl
    have : l = [] := List.eq_nil_of_length_eq_zero (by omega)
    simp [this]
  | succ n ih =>
    intro l hl
    rw [List.range_succ_eq_map, List.map_cons, List.map_map, List.flatten_cons]
    have h0 : (l.drop (0 * k)).take k = l.take k := by simp
    rw [h0]
    have h1 : List.map ((fun i => (l.drop (i * k)).take k) ∘ Nat.succ) (List.range n) =
        List.map (fun i => ((l.drop k).drop (i * k)).take k) (List.range n) := by
      refine List.map_congr_left (fun i _ => ?_)
      simp only [Function.comp]
      rw [List.drop_drop]
      congr 2
      simp [Nat.succ_mul, Nat.mul_comm, Nat.add_comm]
    rw [h1, ih (l.drop k) (by rw [List.length_drop]; rw [Nat.succ_mul] at hl; omega)]
    exact List.take_append_drop k l

/-! ### Exclusion matcher lemmas -/

/-- Characters for which the regex translation of `matchPattern` provably
implements plain glob semantics: everything except the JavaScript regex
metacharacters the translation leaves unescaped. -/
def safePatChar (c : Char) : Bool :=
  !(c = '\\' || c = '+' || c = '(' || c = ')' || c = '[' || c = ']' ||
    c = '\x7b' || c = '\x7d' || c = '|' || c = '^' || c = '$')

/-- The quantified atom a glob character denotes. -/
def globItem (c : Char) : RAtom × RQuant :=
  if c = '*' then (RAtom.any, RQuant.star)
  else if c = '?' then (RAtom.any, RQuant.one)
  else (RAtom.lit c, RQuant.one)

lemma safePatChar_ne (c : Char) (hc : safePatChar c = true) : c ≠ '\\' ∧ c ≠ '+' := by
  constructor <;> intro h <;> subst h <;> simp [safePatChar] at hc

lemma translateGlob_nil : translateGlob [] = [] := rfl

lemma translateGlob_cons (c : Char) (cs : List Char) :
    translateGlob (c :: cs) = translateChar c ++ translateGlob cs := rfl

lemma translateChar_head (c : Char) (hc : safePatChar c = true) :
    ∀ d ds, translateChar c = d :: ds → d ≠ '*' ∧ d ≠ '+' := by
  intro d ds h
  rw [translateChar] at h
  split_ifs at h with h1 h2 h3
  · injection h with h4 _
    subst h4
    exact ⟨by decide, by decide⟩
  · injection h with h4 _
    subst h4
    exact ⟨by decide, by decide⟩
  · injection h with h4 _
    subst h4
    exact ⟨by decide, by decide⟩
  · injection h with h4 _
    subst h4
    exact ⟨h2, (safePatChar_ne c hc).2⟩

lemma translateChar_ne_nil (c : Char) : translateChar c ≠ [] := by
  rw [translateChar]
  split_ifs <;> simp

lemma translateGlob_head (p : List Char) (hp : ∀ c ∈ p, safePatChar c = true) :
    ∀ d ds, translateGlob p = d :: ds → d ≠ '*' ∧ d ≠ '+' := by
  cases p with
  | nil => intro d ds h; simp [translateGlob_nil] at h
  | cons c cs =>
    intro d ds h
    rw [translateGlob_cons] at h
    rcases he : translateChar c with _ | ⟨e, es⟩
    · exact absurd he (translateChar_ne_nil c)
    · rw [he, List.cons_append] at h
      injection h with h4 _
      subst h4
      exact translateChar_head c (hp c (List.mem_cons_self _ _)) _ es he

lemma utf8Bytes_append (s t : String) : utf8Bytes (s ++ t) = utf8Bytes s ++ utf8Bytes t := by
  rw [utf8Bytes, utf8Bytes, utf8Bytes, String.data_append, List.flatMap_append,
    List.map_append]

lemma roundFn_length (st : List Nat) (kw : Nat) : (roundFn st kw).length = st.length := by
  unfold roundFn
  split <;> rfl

lemma foldl_roundFn_length (kws : List Nat) :
    ∀ hs : List Nat, (kws.foldl roundFn hs).length = hs.length := by
  induction kws with
  | nil => intro hs; rfl
  | cons k ks ih => intro hs; rw [List.foldl_cons, ih, roundFn_length]

lemma compressBlock_length (hs block : List Nat) :
    (compressBlock hs block).length = hs.length := by
  unfold compressBlock
  dsimp only
  rw [List.length_zipWith, foldl_roundFn_length]
  exact Nat.min_self _

lemma foldl_compress_length (blocks : List (List Nat)) :
    ∀ hs : List Nat, (blocks.foldl compressBlock hs).length = hs.length := by
  induction blocks with
  | nil => intro hs; rfl
  | cons b bs ih => intro hs; rw [List.foldl_cons, ih, compressBlock_length]

lemma join_data (l : List String) :
    ∀ acc : String, (l.foldl (fun r s => r ++ s) acc).data = acc.data ++ (l.map String.data).flatten := by
  induction l with
  | nil => intro acc; simp
  | cons x xs ih =>
    intro acc
    rw [List.foldl_cons, ih, List.map_cons, List.flatten_cons, String.data_append,
      List.append_assoc]

lemma string_join_data (l : List String) : (String.join l).data = (l.map String.data).flatten := by
  rw [String.join, join_data]
  rfl

lemma toHex8_length (w : Nat) : (toHex8 w).data.length = 8 := by
  rw [toHex8]
  rw [show (String.mk ((List.range 8).map (fun i => hexDigit ((w >>> (28 - 4 * i)) % 16)))).data =
    (List.range 8).map (fun i => hexDigit ((w >>> (28 - 4 * i)) % 16)) from rfl]
  rw [List.length_map, List.length_range]

lemma hexDigit_mem (x : Nat) : hexDigit (x % 16) ∈ "0123456789abcdef".data := by
  have h : x % 16 < ("0123456789abcdef".toList).length := Nat.mod_lt _ (by decide)
  rw [hexDigit, List.getD_eq_getElem _ _ h]
  exact List.getElem_mem h

lemma toHex8_chars (w : Nat) : ∀ ch ∈ (toHex8 w).data, ch ∈ "0123456789abcdef".data := by
  intro ch hch
  rw [show (toHex8 w).data = (List.range 8).map (fun i => hexDigit ((w >>> (28 - 4 * i)) % 16))
    from rfl] at hch
  obtain ⟨i, _, hi⟩ := List.mem_map.mp hch
  rw [← hi]
  exact hexDigit_mem _

lemma sum_map_const_eight (l : List String) (hall : ∀ x ∈ l, x.data.length = 8) :
    ((l.map String.data).map List.length).sum = 8 * l.length := by
  induction l with
  | nil => simp
  | cons x xs ih =>
    rw [List.map_cons, List.map_cons, List.sum_cons, hall x (List.mem_cons_self x xs),
      ih (fun y hy => hall y (List.mem_cons_of_mem _ hy)), List.length_cons]
    ring

lemma sha256Hex_length (msg : List Nat) : (sha256Hex msg).length = 64 := by
  rw [show (sha256Hex msg).length = (sha256Hex msg).data.length from rfl]
  rw [sha256Hex]
  rw [string_join_data, List.length_flatten, List.map_map]
  rw [show List.length ∘ String.data = fun s => s.data.length from rfl]
  have hlen : ((chunk64 (padBytes msg)).foldl compressBlock H256).length = 8 :=
    foldl_compress_length _ _
  have : ∀ x ∈ (((chunk64 (padBytes msg)).foldl compressBlock H256).map toHex8), x.data.length = 8 := by
    intro x hx
    obtain ⟨w, _, hw⟩ := List.mem_map.mp hx
    rw [← hw]
    exact toHex8_length w
  calc ((((chunk64 (padBytes msg)).foldl compressBlock H256).map toHex8).map
          (fun s => s.data.length)).sum
      = 8 * (((chunk64 (padBytes msg)).foldl compressBlock H256).map toHex8).length := by
        have := sum_map_const_eight (((chunk64 (padBytes msg)).foldl compressBlock H256).map toHex8) this
        rw [List.map_map] at this
        exact this
    _ = 64 := by rw [List.length_map, hlen]

lemma sha256Hex_chars (msg : List Nat) :
    ∀ ch ∈ (sha256Hex msg).data, ch ∈ "0123456789abcdef".data := by
  intro ch hch
  rw [sha256Hex] at hch
  rw [string_join_data] at hch
  obtain ⟨l, hl, hchl⟩ := List.mem_flatten.mp hch
  obtain ⟨x, hx, hxl⟩ := List.mem_map.mp hl
  obtain ⟨w, _, hw⟩ := List.mem_map.mp hx
  refine toHex8_chars w ch ?_
  rw [hw, hxl]
  exact hchl

lemma parseRegex_cons_plain (c : Char) (hc1 : c ≠ '*') (hc2 : c ≠ '+') (hc3 : c ≠ '\\')
    (rest : List Char) (hr : ∀ d ds, rest = d :: ds → d ≠ '*' ∧ d ≠ '+') :
    parseRegex (c :: rest) = (parseRegex rest).map (fun its => (atomOf c, RQuant.one) :: its) := by
  cases rest with
  | nil => simp [parseRegex, hc1, hc2, hc3]
  | cons d ds =>
    have hd := hr d ds rfl
    simp [parseRegex, hc1, hc2, hc3, hd.1, hd.2]

lemma parseRegex_backslash (c : Char) (rest : List Char)
    (hr : ∀ d ds, rest = d :: ds → d ≠ '*' ∧ d ≠ '+') :
    parseRegex ('\\' :: c :: rest) =
      (parseRegex rest).map (fun its => (RAtom.lit c, RQuant.one) :: its) := by
  cases rest with
  | nil => simp [parseRegex]
  | cons d ds =>
    have hd := hr d ds rfl
    simp [parseRegex, hd.1, hd.2]

lemma parseRegex_star_dot (rest : List Char) :
    parseRegex ('.' :: '*' :: rest) =
      (parseRegex rest).map (fun its => (RAtom.any, RQuant.star) :: its) := by
  simp [parseRegex, atomOf]

lemma parse_translateGlob (p : List Char) (hp : ∀ c ∈ p, safePatChar c = true) :
    parseRegex (translateGlob p) = some (p.map globItem) := by
  induction p with
  | nil => rfl
  | cons c cs ih =>
    have hc := hp c (List.mem_cons_self _ _)
    have hcs : ∀ x ∈ cs, safePatChar x = true := fun x hx => hp x (List.mem_cons_of_mem _ hx)
    have htail := translateGlob_head cs hcs
    rw [translateGlob_cons]
    by_cases h1 : c = '.'
    · subst h1
      rw [show translateChar '.' = ['\\', '.'] from rfl, List.cons_append, List.cons_append,
        List.nil_append, parseRegex_backslash '.' _ htail, ih hcs]
      simp [globItem]
    · by_cases h2 : c = '*'
      · subst h2
        rw [show translateChar '*' = ['.', '*'] from rfl, List.cons_append, List.cons_append,
          List.nil_append, parseRegex_star_dot _, ih hcs]
        simp [globItem]
      · by_cases h3 : c = '?'
        · subst h3
          rw [show translateChar '?' = ['.'] from rfl, List.cons_append, List.nil_append,
            parseRegex_cons_plain '.' (by decide) (by decide) (by decide) _ htail, ih hcs]
          simp [globItem, atomOf]
        · have hne := safePatChar_ne c hc
          rw [show translateChar c = [c] from by rw [translateChar]; simp [h1, h2, h3],
            List.cons_append, List.nil_append,
            parseRegex_cons_plain c h2 hne.2 hne.1 _ htail, ih hcs]
          simp [globItem, atomOf, h1, h2, h3]

lemma globMatchFuel_lit (fuel : Nat) (c : Char) (ps : List Char) (s : List Char)
    (h1 : c ≠ '*') (h2 : c ≠ '?') :
    globMatchFuel (fuel + 1) (c :: ps) s =
      match s with
      | [] => false
      | d :: cs => (d == c) && globMatchFuel fuel ps cs := by
  cases s <;> simp [globMatchFuel, h1, h2]

lemma reMatch_glob :
    ∀ (fuel : Nat) (p : List Char) (s : List Char), (∀ c ∈ p, safePatChar c = true) →
      reMatchFuel fuel (p.map globItem) s = globMatchFuel fuel p s := by
  intro fuel
  induction fuel with
  | zero => intro p s _; rfl
  | succ fuel ih =>
    intro p s hp
    cases p with
    | nil => rfl
    | cons c ps =>
      have hps : ∀ x ∈ ps, safePatChar x = true := fun x hx => hp x (List.mem_cons_of_mem _ hx)
      by_cases h1 : c = '*'
      · subst h1
        rw [show ('*' :: ps).map globItem = (RAtom.any, RQuant.star) :: ps.map globItem from by
          simp [globItem]]
        cases s with
        | nil => simp [reMatchFuel, globMatchFuel, ih ps [] hps]
        | cons d ds =>
          simp only [reMatchFuel, globMatchFuel, matchAtom, Bool.true_and]
          rw [ih ps (d :: ds) hps]
          rw [show ((RAtom.any, RQuant.star) :: ps.map globItem) = ('*' :: ps).map globItem from by
            simp [globItem]]
          rw [ih ('*' :: ps) ds hp]
      · by_cases h2 : c = '?'
        · subst h2
          rw [show ('?' :: ps).map globItem = (RAtom.any, RQuant.one) :: ps.map globItem from by
            simp [globItem]]
          cases s with
          | nil => simp [reMatchFuel, globMatchFuel]
          | cons d ds =>
            simp only [reMatchFuel, globMatchFuel, matchAtom, Bool.true_and]
            exact ih ps ds hps
        · rw [show (c :: ps).map globItem = (RAtom.lit c, RQuant.one) :: ps.map globItem from by
            simp [globItem, h1, h2]]
          rw [globMatchFuel_lit fuel c ps s h1 h2]
          cases s with
          | nil => simp [reMatchFuel]
          | cons d ds =>
            simp only [reMatchFuel, matchAtom]
            rw [ih ps ds hps]

lemma matchPatternE_safe (str pat : String) (hp : ∀ c ∈ pat.data, safePatChar c = true) :
    matchPatternE str pat = some (globMatch pat str) := by
  rw [matchPatternE, parse_translateGlob pat.data hp]
  rw [Option.map_some']
  congr 1
  rw [reMatch, globMatch, List.length_map]
  exact reMatch_glob _ _ _ hp

lemma orParts_safe (pat : String) (hp : ∀ c ∈ pat.data, safePatChar c = true) :
    ∀ parts : List String, orParts pat parts = some (parts.any (fun part => globMatch pat part)) := by
  intro parts
  induction parts with
  | nil => rfl
  | cons part rest ih =>
    rw [orParts, matchPatternE_safe part pat hp]
    cases hg : globMatch pat part with
    | true => simp [hg]
    | false => simp [hg, ih]

lemma excludeE_safe (parts : List String) (rel : String) (pats : List String)
    (hp : ∀ pat ∈ pats, ∀ c ∈ pat.data, safePatChar c = true) :
    excludeE parts rel pats =
      some (pats.any (fun pat => parts.any (fun part => globMatch pat part) || globMatch pat rel)) := by
  induction pats with
  | nil => rfl
  | cons pat rest ih =>
    have hpat := hp pat (List.mem_cons_self _ _)
    have hrest : ∀ q ∈ rest, ∀ c ∈ q.data, safePatChar c = true :=
      fun q hq => hp q (List.mem_cons_of_mem _ hq)
    rw [excludeE, orParts_safe pat hpat]
    cases hg : parts.any (fun part => globMatch pat part) with
    | true => simp [hg]
    | false =>
      rw [matchPatternE_safe rel pat hpat]
      cases hr : globMatch pat rel with
      | true => simp [hg, hr]
      | false => simp [hg, hr, ih hrest]

/-! ### C7: exclusion matching (corrected) -/

/-- C7 counterexample: with pattern list `["a+"]` the code excludes the
path `"aa"` (the translated regex `^a+$` matches), but under the claim's
glob interpretation neither the single path segment `"aa"` nor the full
relative path `"aa"` matches the pattern `a+`, so the claimed equivalence
fails. -/
theorem exclusion_counterexample :
    shouldExclude (some "aa") ["a+"] = true ∧
    globMatch "a+" "aa" = false ∧
    (splitOnChar '/' "aa".data).map String.mk = ["aa"] := by
  refine ⟨by decide, by decide, by decide⟩

/-- C7 amended: any error while computing the relative path yields "not
excluded" (fail open); and for patterns built from ordinary characters plus
`*`/`?` (no unescaped JavaScript regex metacharacters `\\ + ( ) [ ] { } | ^ $`,
which the translation passes through with regex rather than glob meaning),
a path is excluded iff some pattern glob-matches some path-segment of the
relative path or the full relative path; in particular `*.pyc` excludes
`foo.pyc` but not `foo.pyc.bak`, and a `node_modules` segment anywhere under
the root is excluded under the default pattern list. -/
theorem exclusion_matching_amended :
    (∀ pats : List String, shouldExclude none pats = false) ∧
    (∀ (rel : String) (pats : List String),
      (∀ pat ∈ pats, ∀ c ∈ pat.data, safePatChar c = true) →
      (shouldExclude (some rel) pats = true ↔
        ∃ pat ∈ pats,
          (∃ part ∈ (splitOnChar '/' rel.data).map String.mk, globMatch pat part = true) ∨
          globMatch pat rel = true)) ∧
    shouldExclude (some "foo.pyc") defaultExcludePatterns = true ∧
    shouldExclude (some "foo.pyc.bak") defaultExcludePatterns = false ∧
    shouldExclude (some "src/node_modules/lib/a.js") defaultExcludePatterns = true := by
  refine ⟨fun _ => rfl, ?_, by decide, by decide, by decide⟩
  intro rel pats hp
  rw [shouldExclude, excludeE_safe _ _ _ hp, Option.getD_some]
  rw [List.any_eq_true]
  constructor
  · rintro ⟨pat, hpat, hor⟩
    rw [Bool.or_eq_true, List.any_eq_true] at hor
    exact ⟨pat, hpat, by tauto⟩
  · rintro ⟨pat, hpat, hor⟩
    refine ⟨pat, hpat, ?_⟩
    rw [Bool.or_eq_true, List.any_eq_true]
    tauto

/-- Witness for C7: fail-open on a failed relative path, and the amended
equivalence instantiated at `rel = "src/node_modules/x"` with the default
pattern list (whose patterns are all safe). -/
theorem exclusion_matching_witness :
    shouldExclude none defaultExcludePatterns = false ∧
    (shouldExclude (some "src/node_modules/x") defaultExcludePatterns = true ↔
      ∃ pat ∈ defaultExcludePatterns,
        (∃ part ∈ (splitOnChar '/' "src/node_modules/x".data).map String.mk,
          globMatch pat part = true) ∨
        globMatch pat "src/node_modules/x" = true) := by
  exact ⟨exclusion_matching_amended.1 defaultExcludePatterns,
    exclusion_matching_amended.2.1 "src/node_modules/x" defaultExcludePatterns (by decide)⟩

/-! ### C6: hash determinism (corrected) -/

/-- C6 counterexample: the digest is taken over the concatenation of path and
content, so the distinct pairs `("ab", "c")` and `("a", "bc")` — whose paths
differ and whose contents differ — hash identically, contradicting the claim
that the hash differs whenever either component differs. -/
theorem hash_concat_counterexample :
    calculateHash "ab" "c" = calculateHash "a" "bc" ∧
    ("ab" : String) ≠ "a" ∧ ("c" : String) ≠ "bc" := by
  refine ⟨?_, by decide, by decide⟩
  show sha256Hex (utf8Bytes "ab" ++ utf8Bytes "c") = sha256Hex (utf8Bytes "a" ++ utf8Bytes "bc")
  exact congrArg sha256Hex (by decide)

/-- C6 amended: hashing is deterministic and the 64-character lowercase-hex
digest depends only on the concatenation `path ++ content` — identical
concatenations always yield identical hashes (even for distinct pairs);
distinctness for differing concatenations holds only up to SHA-256 collision
resistance and is not proved. -/
theorem hash_determinism_amended :
    (∀ p1 c1 p2 c2 : String, p1 ++ c1 = p2 ++ c2 →
      calculateHash p1 c1 = calculateHash p2 c2) ∧
    (∀ p c : String, (calculateHash p c).length = 64) ∧
    (∀ p c : String, ∀ ch ∈ (calculateHash p c).data, ch ∈ "0123456789abcdef".data) := by
  refine ⟨?_, ?_, ?_⟩
  · intro p1 c1 p2 c2 hcat
    rw [calculateHash, calculateHash, ← utf8Bytes_append, ← utf8Bytes_append, hcat]
  · intro p c
    rw [calculateHash]
    exact sha256Hex_length _
  · intro p c
    rw [calculateHash]
    exact sha256Hex_chars _

/-- Witness for C6: the amended theorem applied at the colliding concrete
pairs, plus the concrete digest length. -/
theorem hash_determinism_witness :
    calculateHash "ab" "c" = calculateHash "a" "bc" ∧
    (calculateHash "ab" "c").length = 64 := by
  exact ⟨hash_determinism_amended.1 "ab" "c" "a" "bc" (by decide),
    hash_determinism_amended.2.1 "ab" "c"⟩

/-! ### Retry loop lemmas -/

lemma retryable_guard_false {e : JsError}
    (hre : e.isAxiosError = false ∨ isRetryableError e = true) :
    (e.isAxiosError && !isRetryableError e) = false := by
  rcases hre with h | h <;> simp [h]

lemma map_pow_shift (d attempt k : Nat) :
    d * 2 ^ attempt :: (List.range k).map (fun i => d * 2 ^ (attempt + 1 + i)) =
      (List.range (k + 1)).map (fun i => d * 2 ^ (attempt + i)) := by
  rw [List.range_succ_eq_map, List.map_cons, List.map_map, Nat.add_zero]
  congr 1
  refine List.map_congr_left fun i _ => ?_
  simp only [Function.comp_apply]
  have hidx : attempt + 1 + i = attempt + Nat.succ i := by omega
  rw [hidx]

lemma retryAux_ok {α : Type} (fn : Nat → Except JsError α) (m d : Nat) :
    ∀ (k attempt fuel : Nat) (last : JsError) (v : α),
      (∀ i, i < k → ∃ e, fn (attempt + i) = Except.error e ∧
        (e.isAxiosError = false ∨ isRetryableError e = true)) →
      fn (attempt + k) = Except.ok v →
      k < fuel → attempt + fuel = m →
      retryAux fn m d attempt fuel last =
        (Except.ok v, (List.range k).map (fun i => d * 2 ^ (attempt + i))) := by
  intro k
  induction k with
  | zero =>
    intro attempt fuel last v _hfail hok hkf _hfm
    cases fuel with
    | zero => omega
    | succ fuel =>
      rw [Nat.add_zero] at hok
      rw [retryAux, hok]
      dsimp only
      simp
  | succ k ih =>
    intro attempt fuel last v hfail hok hkf hfm
    cases fuel with
    | zero => omega
    | succ fuel =>
      obtain ⟨e, he, hre⟩ := hfail 0 (by omega)
      rw [Nat.add_zero] at he
      rw [retryAux, he]
      dsimp only
      rw [retryable_guard_false hre]
      rw [if_neg (by simp)]
      have ih' := ih (attempt + 1) fuel e v ?_ ?_ (by omega) (by omega)
      · rw [if_pos (by omega), ih']
        dsimp only
        rw [map_pow_shift]
      · intro i hi
        obtain ⟨e', he', hr'⟩ := hfail (i + 1) (by omega)
        refine ⟨e', ?_, hr'⟩
        rw [show attempt + 1 + i = attempt + (i + 1) from by omega]
        exact he'
      · rw [show attempt + 1 + k = attempt + (k + 1) from by omega]
        exact hok

lemma retryAux_exhaust {α : Type} (fn : Nat → Except JsError α) (m d : Nat) :
    ∀ (fuel attempt : Nat) (last : JsError),
      0 < fuel → attempt + fuel = m →
      (∀ i, i < fuel → ∃ e, fn (attempt + i) = Except.error e ∧
        (e.isAxiosError = false ∨ isRetryableError e = true)) →
      retryAux fn m d attempt fuel last =
        (fn (attempt + (fuel - 1)), (List.range (fuel - 1)).map (fun i => d * 2 ^ (attempt + i))) := by
  intro fuel
  induction fuel with
  | zero => omega
  | succ f ih =>
    intro attempt last _h0 hm hfail
    obtain ⟨e, he, hre⟩ := hfail 0 (by omega)
    rw [Nat.add_zero] at he
    rw [retryAux, he]
    dsimp only
    rw [retryable_guard_false hre]
    rw [if_neg (by simp)]
    cases f with
    | zero =>
      rw [retryAux]
      rw [if_neg (by omega)]
      simp [he]
    | succ f' =>
      have ih' := ih (attempt + 1) e (by omega) (by omega) ?_
      · rw [if_pos (by omega), ih']
        dsimp only
        simp only [Nat.add_sub_cancel]
        congr 1
        · congr 1
          omega
        · exact map_pow_shift d attempt f'
      · intro i hi
        obtain ⟨e', he', hr'⟩ := hfail (i + 1) (by omega)
        refine ⟨e', ?_, hr'⟩
        rw [show attempt + 1 + i = attempt + (i + 1) from by omega]
        exact he'

/-! ### C5: retry policy (corrected) -/

/-- C5 counterexample: an Axios error with code `ECONNRESET` (a connection
reset) is NOT retried by `retryRequest` — it propagates on the first attempt
with no backoff wait, and a second attempt that would have succeeded is never
made — contradicting the claim that connection-reset errors are transient and
retried. -/
theorem retry_policy_counterexample :
    retryRequest (fun i => if i = 0 then (Except.error errReset : Except JsError Nat) else Except.ok 7)
        3 1000 = (Except.error errReset, []) ∧
    errReset.isAxiosError = true ∧ errReset.code = some "ECONNRESET" := by
  refine ⟨by decide, rfl, rfl⟩

/-- C5 amended: HTTP 503 is classified retryable and 404 is not; an Axios
error that is not retryable (connection reset included, since only
`ECONNABORTED`/`ETIMEDOUT`/`ECONNREFUSED`, 429 and 5xx are transient)
propagates immediately with no wait; errors classified retryable — and any
non-Axios error — are retried with waits `d·2^0, d·2^1, …` up to the fixed
maximum attempt count, after which the last error propagates. -/
theorem retry_policy_amended :
    (∀ m : String, isRetryableError ⟨true, none, some 503, m⟩ = true) ∧
    (∀ m : String, isRetryableError ⟨true, none, some 404, m⟩ = false) ∧
    (∀ (α : Type) (fn : Nat → Except JsError α) (m d : Nat) (e : JsError),
      0 < m → fn 0 = Except.error e → e.isAxiosError = true → isRetryableError e = false →
      retryRequest fn m d = (Except.error e, [])) ∧
    (∀ (α : Type) (fn : Nat → Except JsError α) (m d k : Nat) (v : α),
      k < m →
      (∀ i, i < k → ∃ e, fn i = Except.error e ∧
        (e.isAxiosError = false ∨ isRetryableError e = true)) →
      fn k = Except.ok v →
      retryRequest fn m d = (Except.ok v, (List.range k).map (fun i => d * 2 ^ i))) ∧
    (∀ (α : Type) (fn : Nat → Except JsError α) (m d : Nat),
      0 < m →
      (∀ i, i < m → ∃ e, fn i = Except.error e ∧
        (e.isAxiosError = false ∨ isRetryableError e = true)) →
      retryRequest fn m d = (fn (m - 1), (List.range (m - 1)).map (fun i => d * 2 ^ i))) := by
  refine ⟨fun _ => rfl, fun _ => rfl, ?_, ?_, ?_⟩
  · intro α fn m d e hm h0 hax hnr
    cases m with
    | zero => omega
    | succ m =>
      rw [retryRequest, retryAux, h0]
      dsimp only
      rw [if_pos (by rw [hax, hnr]; rfl)]
  · intro α fn m d k v hk hfail hok
    have h := retryAux_ok fn m d k 0 m nullError v
      (by intro i hi; simpa using hfail i hi) (by simpa using hok) hk (by omega)
    rw [retryRequest, h]
    simp
  · intro α fn m d hm hfail
    have h := retryAux_exhaust fn m d m 0 nullError hm (by omega)
      (by intro i hi; simpa using hfail i hi)
    rw [retryRequest, h]
    simp

/-- Witness for C5 at concrete inputs: 503 errors are retried with backoff
1000, 2000 and the last error propagates; a 404 propagates immediately; a
503 followed by a success returns the success after one wait. -/
theorem retry_policy_witness :
    retryRequest (fun _ => (Except.error err503 : Except JsError Nat)) 3 1000 =
      (Except.error err503, [1000, 2000]) ∧
    retryRequest (fun _ => (Except.error err404 : Except JsError Nat)) 3 1000 =
      (Except.error err404, []) ∧
    retryRequest (fun i => if i = 0 then (Except.error err503 : Except JsError Nat) else Except.ok 7)
        3 1000 = (Except.ok 7, [1000]) := by
  obtain ⟨-, -, hprop, hok, hexh⟩ := retry_policy_amended
  refine ⟨?_, ?_, ?_⟩
  · have h := hexh Nat (fun _ => Except.error err503) 3 1000 (by omega)
      (fun i _ => ⟨err503, rfl, Or.inr (by decide)⟩)
    rw [h]
    decide
  · exact hprop Nat (fun _ => Except.error err404) 3 1000 err404 (by omega) rfl rfl (by decide)
  · have h := hok Nat
      (fun i => if i = 0 then (Except.error err503 : Except JsError Nat) else Except.ok 7)
      3 1000 1 7 (by omega)
      (fun i hi => ⟨err503, by interval_cases i; rfl, Or.inr (by decide)⟩) rfl
    rw [h]
    decide

/-! ### C1: diff correctness -/

/-- C1: for every previously stored hash set `S_prev` and freshly computed
hash set `S_curr` (no duplicates), the diff step computes
`unchanged = S_prev ∩ S_curr` and `new = S_curr − S_prev`; their union is
exactly `S_curr`, they are disjoint, and neither contains duplicates. -/
theorem diff_correctness (existing current : List String) (hnd : current.Nodup) :
    (∀ h, h ∈ unchangedHashes existing current ↔ h ∈ existing ∧ h ∈ current) ∧
    (∀ h, h ∈ newHashes existing current ↔ h ∈ current ∧ h ∉ existing) ∧
    (unchangedHashes existing current ++ newHashes existing current).Perm current ∧
    (∀ h, h ∈ unchangedHashes existing current → h ∉ newHashes existing current) ∧
    (unchangedHashes existing current).Nodup ∧ (newHashes existing current).Nodup := by
  have hu : ∀ h, h ∈ unchangedHashes existing current ↔ h ∈ existing ∧ h ∈ current := by
    intro h
    rw [unchangedHashes, List.mem_filter, contains_iff_mem]
    tauto
  have hn : ∀ h, h ∈ newHashes existing current ↔ h ∈ current ∧ h ∉ existing := by
    intro h
    rw [newHashes, List.mem_filter]
    constructor
    · rintro ⟨h1, h2⟩
      rw [Bool.not_eq_true'] at h2
      refine ⟨h1, fun hmem => ?_⟩
      rw [(contains_iff_mem _ _).mpr hmem] at h2
      exact absurd h2 (by simp)
    · rintro ⟨h1, h2⟩
      refine ⟨h1, ?_⟩
      rw [Bool.not_eq_true']
      cases hc : existing.contains h with
      | false => rfl
      | true => exact absurd ((contains_iff_mem _ _).mp hc) h2
  refine ⟨hu, hn, List.filter_append_perm _ current, ?_, hnd.filter _, hnd.filter _⟩
  intro h h1 h2
  exact ((hn h).mp h2).2 ((hu h).mp h1).1

/-- Witness for C1 at concrete inputs. -/
theorem diff_correctness_witness :
    (["b", "c"] : List String).Nodup ∧
    unchangedHashes ["a", "b"] ["b", "c"] = ["b"] ∧
    newHashes ["a", "b"] ["b", "c"] = ["c"] ∧
    (unchangedHashes ["a", "b"] ["b", "c"] ++ newHashes ["a", "b"] ["b", "c"]).Perm ["b", "c"] := by
  have h := diff_correctness ["a", "b"] ["b", "c"] (by decide)
  exact ⟨by decide, by decide, by decide, h.2.2.1⟩

/-! ### C4: chunker correctness -/

/-- C4: with `0 < maxLinesPerBlob`, a file within the limit is returned as a
single unchanged Blob; otherwise `splitFileContent` emits exactly
`ceil(totalLines / maxLinesPerBlob)` Blobs named `<path>#chunk<i>of<n>`
(1-indexed) over the fixed-size, non-overlapping, order-preserving line
groups `lines[i*k .. i*k+k)`, whose concatenation in ordinal order is exactly
the original line sequence; every group has at most `k` lines and every
non-final group exactly `k`. -/
theorem chunker_correctness (k : Nat) (filePath content : String) (hk : 0 < k) :
    ((splitLines content).length ≤ k →
      splitFileContent k filePath content = [⟨filePath, content, none⟩]) ∧
    (k < (splitLines content).length →
      splitFileContent k filePath content =
        (List.range (ceilDiv (splitLines content).length k)).map (fun i =>
          ⟨filePath ++ "#chunk" ++ toString (i + 1) ++ "of" ++
              toString (ceilDiv (splitLines content).length k),
            joinNl (((splitLines content).drop (i * k)).take k), none⟩) ∧
      (splitFileContent k filePath content).length = ceilDiv (splitLines content).length k ∧
      ((List.range (ceilDiv (splitLines content).length k)).map
          (fun i => ((splitLines content).drop (i * k)).take k)).flatten = splitLines content ∧
      (∀ i, i + 1 < ceilDiv (splitLines content).length k →
        (((splitLines content).drop (i * k)).take k).length = k) ∧
      (∀ i, i < ceilDiv (splitLines content).length k →
        (((splitLines content).drop (i * k)).take k).length ≤ k)) := by
  constructor
  · intro hle
    rw [splitFileContent, if_pos hle]
  · intro hlt
    have hmap : splitFileContent k filePath content =
        (List.range (ceilDiv (splitLines content).length k)).map (fun i =>
          ⟨filePath ++ "#chunk" ++ toString (i + 1) ++ "of" ++
              toString (ceilDiv (splitLines content).length k),
            joinNl (((splitLines content).drop (i * k)).take k), none⟩) := by
      rw [splitFileContent, if_neg (by omega)]
      refine List.map_congr_left (fun i _ => ?_)
      dsimp only
      rw [take_min_clamp]
    refine ⟨hmap, ?_, ?_, ?_, ?_⟩
    · rw [hmap, List.length_map, List.length_range]
    · exact flatten_chunks k hk _ _ (ceilDiv_le_mul _ _ hk)
    · intro i hi
      rw [List.length_take, List.length_drop]
      have hbound : (i + 1) * k ≤ (ceilDiv (splitLines content).length k - 1) * k :=
        Nat.mul_le_mul_right k (by omega)
      have hlast := ceilDiv_pred_mul_lt (splitLines content).length k hk (by omega)
      have : (i + 1) * k < (splitLines content).length := lt_of_le_of_lt hbound hlast
      rw [Nat.succ_mul] at this
      omega
    · intro i _
      rw [List.length_take]
      omega

/-- Witness for C4: a 5-line file with `maxLinesPerBlob = 2` splits into 3
chunks that reconstruct the original lines. -/
theorem chunker_correctness_witness :
    splitFileContent 2 "f" "1\n2\n3\n4\n5" =
      [⟨"f#chunk1of3", "1\n2", none⟩, ⟨"f#chunk2of3", "3\n4", none⟩, ⟨"f#chunk3of3", "5", none⟩] ∧
    splitFileContent 2 "f" "1\n2" = [⟨"f", "1\n2", none⟩] := by
  have h := chunker_correctness 2 "f" "1\n2\n3\n4\n5" (by decide)
  have h2 := chunker_correctness 2 "f" "1\n2" (by decide)
  constructor
  · rw [(h.2 (by decide)).1]
    decide
  · rw [h2.1 (by decide)]

/-! ### Batch loop characterization -/

/-- The final outcome of the retried upload request for batch `i`. -/
def batchCallResult (attempts : Nat → Nat → Except JsError BatchUploadResponse) (i : Nat) :
    Except JsError BatchUploadResponse :=
  (retryRequest (attempts i) 3 1000).1

/-- The identifiers the loop accumulates for batch `i`: the response's
`blob_names` when the retried call succeeded with a nonempty list, else
nothing (the batch counts as failed). -/
def batchNames (attempts : Nat → Nat → Except JsError BatchUploadResponse) (i : Nat) :
    List String :=
  match batchCallResult attempts i with
  | Except.ok result => if result.blob_names.length > 0 then result.blob_names else []
  | Except.error _ => []

lemma runBatches_succ (attempts : Nat → Nat → Except JsError BatchUploadResponse) (n : Nat) :
    runBatches attempts (n + 1) =
      ((runBatches attempts n).1 ++ batchNames attempts n,
       (runBatches attempts n).2 ++ (if (batchNames attempts n).isEmpty then [n + 1] else [])) := by
  rw [runBatches, runBatches, List.range_succ, List.foldl_append, List.foldl_cons, List.foldl_nil]
  rcases hc : batchCallResult attempts n with e | r
  · rw [show (retryRequest (attempts n) 3 1000).1 = batchCallResult attempts n from rfl, hc]
    rw [batchNames, hc]
    dsimp only
    simp
  · rw [show (retryRequest (attempts n) 3 1000).1 = batchCallResult attempts n from rfl, hc]
    rw [batchNames, hc]
    dsimp only
    by_cases hlen : r.blob_names.length > 0
    · rw [if_pos hlen, if_pos hlen]
      have : (r.blob_names.isEmpty) = false := by
        cases hbn : r.blob_names with
        | nil => rw [hbn] at hlen; simp at hlen
        | cons a as => rfl
      rw [this]
      simp
    · rw [if_neg hlen, if_neg hlen]
      simp

lemma runBatches_spec (attempts : Nat → Nat → Except JsError BatchUploadResponse) :
    ∀ n : Nat,
      runBatches attempts n =
        ((List.range n).flatMap (batchNames attempts),
         ((List.range n).filter (fun i => (batchNames attempts i).isEmpty)).map (fun i => i + 1)) := by
  intro n
  induction n with
  | zero => rfl
  | succ n ih =>
    rw [runBatches_succ, ih, List.range_succ, List.flatMap_append, List.filter_append,
      List.map_append]
    congr 1
    · simp
    · congr 1
      cases he : (batchNames attempts n).isEmpty <;> simp [he]

/-! ### Projects map lemmas -/

lemma bool_not_true {b : Bool} (h : ¬b = true) : b = false := by
  revert h
  cases b <;> simp

lemma lookupProj_cons_hit (kv : String × List String) (rest : ProjectsMap) (k : String)
    (h : (kv.1 == k) = true) : lookupProj (kv :: rest) k = some kv.2 := by
  rw [lookupProj, List.find?_cons]
  simp only [h]
  rfl

lemma lookupProj_cons_miss (kv : String × List String) (rest : ProjectsMap) (k : String)
    (h : (kv.1 == k) = false) : lookupProj (kv :: rest) k = lookupProj rest k := by
  rw [lookupProj, List.find?_cons]
  simp only [h]
  rfl

lemma lookupProj_map_set (m : ProjectsMap) (k : String) (v : List String)
    (h : List.any m (fun kv => kv.1 == k) = true) :
    lookupProj (m.map (fun kv => if kv.1 == k then (k, v) else kv)) k = some v := by
  induction m with
  | nil => simp at h
  | cons kv rest ih =>
    by_cases hkv : (kv.1 == k) = true
    · rw [List.map_cons, if_pos hkv, lookupProj_cons_hit (k, v) _ k (by simp)]
    · have h1 : (rest.any fun kv => kv.1 == k) = true := by
        rw [List.any_cons] at h
        rcases Bool.or_eq_true_iff.mp h with h1 | h1
        · exact absurd h1 hkv
        · exact h1
      rw [List.map_cons, if_neg hkv, lookupProj_cons_miss kv _ k (bool_not_true hkv)]
      exact ih h1

lemma lookupProj_append_self (m : ProjectsMap) (k : String) (v : List String)
    (h : List.any m (fun kv => kv.1 == k) = false) :
    lookupProj (m ++ [(k, v)]) k = some v := by
  induction m with
  | nil => rw [List.nil_append, lookupProj_cons_hit (k, v) _ k (by simp)]
  | cons kv rest ih =>
    rw [List.any_cons] at h
    have h2 := Bool.or_eq_false_iff.mp h
    rw [List.cons_append, lookupProj_cons_miss kv _ k h2.1]
    exact ih h2.2

lemma lookupProj_setProj_self (m : ProjectsMap) (k : String) (v : List String) :
    lookupProj (setProj m k v) k = some v := by
  rw [setProj]
  split_ifs with h
  · exact lookupProj_map_set m k v h
  · exact lookupProj_append_self m k v (bool_not_true h)

lemma lookupProj_map_set_other (m : ProjectsMap) (k : String) (v : List String)
    (q : String) (hq : q ≠ k) :
    lookupProj (m.map (fun kv => if kv.1 == k then (k, v) else kv)) q = lookupProj m q := by
  have hkq : (k == q) = false := by
    rw [beq_eq_false_iff_ne]
    exact fun hkq => hq hkq.symm
  induction m with
  | nil => rfl
  | cons kv rest ih =>
    by_cases hkv : (kv.1 == k) = true
    · have hk1 : kv.1 = k := beq_iff_eq.mp hkv
      rw [List.map_cons, if_pos hkv, lookupProj_cons_miss (k, v) _ q hkq,
        lookupProj_cons_miss kv _ q (by rw [hk1]; exact hkq)]
      exact ih
    · cases hfq : (kv.1 == q) with
      | true =>
        rw [List.map_cons, if_neg hkv, lookupProj_cons_hit kv _ q hfq,
          lookupProj_cons_hit kv _ q hfq]
      | false =>
        rw [List.map_cons, if_neg hkv, lookupProj_cons_miss kv _ q hfq,
          lookupProj_cons_miss kv _ q hfq]
        exact ih

lemma lookupProj_append_other (m : ProjectsMap) (k : String) (v : List String)
    (q : String) (hq : q ≠ k) :
    lookupProj (m ++ [(k, v)]) q = lookupProj m q := by
  have hkq : (k == q) = false := by
    rw [beq_eq_false_iff_ne]
    exact fun hkq => hq hkq.symm
  induction m with
  | nil =>
    rw [List.nil_append, lookupProj_cons_miss (k, v) _ q hkq]
  | cons kv rest ih =>
    cases hfq : (kv.1 == q) with
    | true =>
      rw [List.cons_append, lookupProj_cons_hit kv _ q hfq, lookupProj_cons_hit kv _ q hfq]
    | false =>
      rw [List.cons_append, lookupProj_cons_miss kv _ q hfq, lookupProj_cons_miss kv _ q hfq]
      exact ih

lemma lookupProj_setProj_other (m : ProjectsMap) (k : String) (v : List String)
    (q : String) (hq : q ≠ k) :
    lookupProj (setProj m k v) q = lookupProj m q := by
  rw [setProj]
  split_ifs with h
  · exact lookupProj_map_set_other m k v q hq
  · exact lookupProj_append_other m k v q hq

/-! ### Blob map lemmas -/

/-- Every entry of the hash map keys the blob by its own hash, with the hash
recorded on the blob. -/
def goodMap (m : List (String × Blob)) : Prop :=
  ∀ kv ∈ m, calculateHash kv.2.path kv.2.content = kv.1 ∧ kv.2.hash = some kv.1

lemma insertHashed_good (m : List (String × Blob)) (h : String) (b : Blob)
    (hh : calculateHash b.path b.content = h ∧ b.hash = some h) (hm : goodMap m) :
    goodMap (insertHashed m h b) := by
  intro kv hkv
  rw [insertHashed] at hkv
  split_ifs at hkv with hc
  · obtain ⟨kv', hkv', heq⟩ := List.mem_map.mp hkv
    by_cases hb : (kv'.1 == h) = true
    · rw [if_pos hb] at heq
      rw [← heq]
      exact hh
    · rw [if_neg hb] at heq
      rw [← heq]
      exact hm kv' hkv'
  · rcases List.mem_append.mp hkv with h1 | h1
    · exact hm kv h1
    · rw [List.mem_singleton.mp h1]
      exact hh

lemma buildBlobMap_good (blobs : List Blob) : goodMap (buildBlobMap blobs) := by
  rw [buildBlobMap]
  have : ∀ (bs : List Blob) (m : List (String × Blob)), goodMap m →
      goodMap (bs.foldl (fun m b =>
        insertHashed m (calculateHash b.path b.content)
          ⟨b.path, b.content, some (calculateHash b.path b.content)⟩) m) := by
    intro bs
    induction bs with
    | nil => intro m hm; exact hm
    | cons b rest ih =>
      intro m hm
      rw [List.foldl_cons]
      exact ih _ (insertHashed_good m _ _ ⟨rfl, rfl⟩ hm)
  exact this blobs [] (fun kv hkv => absurd hkv (List.not_mem_nil kv))

lemma mapKeys_insertHashed (m : List (String × Blob)) (h : String) (b : Blob) :
    mapKeys (insertHashed m h b) =
      if m.any (fun kv => kv.1 == h) then mapKeys m else mapKeys m ++ [h] := by
  rw [insertHashed]
  split_ifs with hc
  · rw [mapKeys, mapKeys, List.map_map]
    refine List.map_congr_left fun kv _ => ?_
    by_cases hb : (kv.1 == h) = true
    · simp only [Function.comp_apply, if_pos hb]
      exact (beq_iff_eq.mp hb).symm
    · simp only [Function.comp_apply, if_neg hb]
  · rw [mapKeys, mapKeys, List.map_append]
    rfl

lemma any_key_iff_mem (m : List (String × Blob)) (h : String) :
    m.any (fun kv => kv.1 == h) = true ↔ h ∈ mapKeys m := by
  rw [List.any_eq_true, mapKeys]
  constructor
  · rintro ⟨kv, hkv, hb⟩
    exact List.mem_map.mpr ⟨kv, hkv, beq_iff_eq.mp hb⟩
  · intro hm
    obtain ⟨kv, hkv, hk⟩ := List.mem_map.mp hm
    exact ⟨kv, hkv, beq_iff_eq.mpr hk⟩

lemma buildBlobMap_keys_nodup (blobs : List Blob) : (mapKeys (buildBlobMap blobs)).Nodup := by
  rw [buildBlobMap]
  have : ∀ (bs : List Blob) (m : List (String × Blob)), (mapKeys m).Nodup →
      (mapKeys (bs.foldl (fun m b =>
        insertHashed m (calculateHash b.path b.content)
          ⟨b.path, b.content, some (calculateHash b.path b.content)⟩) m)).Nodup := by
    intro bs
    induction bs with
    | nil => intro m hm; exact hm
    | cons b rest ih =>
      intro m hm
      rw [List.foldl_cons]
      refine ih _ ?_
      rw [mapKeys_insertHashed]
      split_ifs with hc
      · exact hm
      · rw [List.nodup_append]
        refine ⟨hm, List.nodup_singleton _, fun a ha ha' => ?_⟩
        rw [List.mem_singleton.mp ha'] at ha
        exact absurd ((any_key_iff_mem m _).mpr ha) hc
  exact this blobs [] (by simp [mapKeys])

lemma mapLookupBlob_hash (m : List (String × Blob)) (hgood : goodMap m) (h : String)
    (hmem : h ∈ mapKeys m) :
    calculateHash (mapLookupBlob m h).path (mapLookupBlob m h).content = h := by
  rw [mapLookupBlob]
  rcases hf : List.find? (fun kv => kv.1 == h) m with - | kv
  · exfalso
    obtain ⟨kv, hkv, hk1⟩ := List.mem_map.mp hmem
    exact (List.find?_eq_none.mp hf kv hkv) (beq_iff_eq.mpr hk1)
  · have hkv := List.find?_some hf
    have hmem' := List.mem_of_find?_eq_some hf
    have hg := hgood kv hmem'
    rw [hf, Option.map_some', Option.getD_some]
    rw [hg.1]
    exact beq_iff_eq.mp hkv

lemma blobsToUpload_hashes (blobs : List Blob) (existing : List String) :
    ((newHashes existing (mapKeys (buildBlobMap blobs))).map
        (fun h => mapLookupBlob (buildBlobMap blobs) h)).map
      (fun b => calculateHash b.path b.content) =
      newHashes existing (mapKeys (buildBlobMap blobs)) := by
  rw [List.map_map]
  have hstep : ∀ h ∈ newHashes existing (mapKeys (buildBlobMap blobs)),
      ((fun b => calculateHash b.path b.content) ∘
        (fun h => mapLookupBlob (buildBlobMap blobs) h)) h = (fun h => h) h := by
    intro h hm
    have hmem : h ∈ mapKeys (buildBlobMap blobs) := List.mem_of_mem_filter hm
    exact mapLookupBlob_hash _ (buildBlobMap_good blobs) h hmem
  rw [List.map_congr_left hstep, List.map_id']

/-! ### Slice lemmas -/

lemma batchSlice_eq_take (l : List α) (bs i : Nat) :
    batchSlice l bs i = (l.drop (i * bs)).take bs := by
  rw [batchSlice, take_min_clamp]

lemma slice_mem_take (l : List α) (bs i : Nat) (x : α) (hx : x ∈ (l.drop (i * bs)).take bs) :
    x ∈ l.take (i * bs + bs) := by
  have h2 : (l.drop (i * bs)).take bs = (l.take (i * bs + bs)).drop (i * bs) := by
    rw [List.drop_take]
    congr 1
    omega
  rw [h2] at hx
  exact List.drop_subset _ _ hx

lemma slices_disjoint (l : List α) (hnd : l.Nodup) (bs : Nat) (hbs : 0 < bs) (i j : Nat)
    (hij : i < j) (x : α) (hi : x ∈ (l.drop (i * bs)).take bs)
    (hj : x ∈ (l.drop (j * bs)).take bs) : False := by
  have h1 : x ∈ l.take (i * bs + bs) := slice_mem_take l bs i x hi
  have h2 : x ∈ l.drop (i * bs + bs) := by
    have hdr : l.drop (j * bs) = (l.drop (i * bs + bs)).drop (j * bs - (i * bs + bs)) := by
      rw [List.drop_drop]
      congr 1
      have : (i + 1) * bs ≤ j * bs := Nat.mul_le_mul_right bs (by omega)
      rw [Nat.succ_mul] at this
      omega
    have := List.take_subset bs _ hj
    rw [hdr] at this
    exact List.drop_subset _ _ this
  have hnodup : (l.take (i * bs + bs) ++ l.drop (i * bs + bs)).Nodup := by
    rw [List.take_append_drop]
    exact hnd
  exact (List.nodup_append.mp hnodup).2.2 h1 h2

lemma slice_ne_nil (l : List α) (bs i : Nat) (hbs : 0 < bs) (hi : i < ceilDiv l.length bs) :
    (l.drop (i * bs)).take bs ≠ [] := by
  have hpos : 0 < l.length := by
    rcases Nat.eq_zero_or_pos l.length with h0 | h0
    · rw [h0] at hi
      rw [show ceilDiv 0 bs = 0 from by rw [ceilDiv]; rw [Nat.zero_add]; exact Nat.div_eq_of_lt (by omega)] at hi
      omega
    · exact h0
  have hlt : i * bs < l.length := by
    have h1 : i * bs ≤ (ceilDiv l.length bs - 1) * bs := Nat.mul_le_mul_right bs (by omega)
    exact lt_of_le_of_lt h1 (ceilDiv_pred_mul_lt l.length bs hbs hpos)
  intro hnil
  have := congrArg List.length hnil
  rw [List.length_take, List.length_drop, List.length_nil] at this
  omega

/-! ### Characterization of the ok-path of `indexProject`

The `ip…` definitions name the intermediate values of the pipeline so that a
single equation describes the whole pass. -/

def ipExisting (projects : ProjectsMap) (norm : String) : List String :=
  (lookupProj projects norm).getD []

def ipCurrent (blobs : List Blob) : List String := mapKeys (buildBlobMap blobs)

def ipUnchanged (projects : ProjectsMap) (norm : String) (blobs : List Blob) : List String :=
  unchangedHashes (ipExisting projects norm) (ipCurrent blobs)

def ipNew (projects : ProjectsMap) (norm : String) (blobs : List Blob) : List String :=
  newHashes (ipExisting projects norm) (ipCurrent blobs)

def ipToUpload (projects : ProjectsMap) (norm : String) (blobs : List Blob) : List Blob :=
  (ipNew projects norm blobs).map (fun h => mapLookupBlob (buildBlobMap blobs) h)

def ipTotal (projects : ProjectsMap) (norm : String) (blobs : List Blob) (bs : Nat) : Nat :=
  ceilDiv (ipToUpload projects norm blobs).length bs

def ipRes (projects : ProjectsMap) (norm : String) (blobs : List Blob) (bs : Nat)
    (attempts : Nat → Nat → Except JsError BatchUploadResponse) : List String × List Nat :=
  runBatches attempts (ipTotal projects norm blobs bs)

def ipAll (projects : ProjectsMap) (norm : String) (blobs : List Blob) (bs : Nat)
    (attempts : Nat → Nat → Except JsError BatchUploadResponse) : List String :=
  ipUnchanged projects norm blobs ++ (ipRes projects norm blobs bs attempts).1

lemma indexProject_collect_error (bs : Nat) (norm saveMsg msg : String)
    (projects : ProjectsMap) (attempts : Nat → Nat → Except JsError BatchUploadResponse)
    (saveOk : Bool) :
    indexProject bs norm (Except.error msg) projects attempts saveOk saveMsg =
      (⟨IStatus.error, msg, none, none, none⟩, none) := rfl

lemma indexProject_no_blobs (bs : Nat) (norm saveMsg : String)
    (projects : ProjectsMap) (attempts : Nat → Nat → Except JsError BatchUploadResponse)
    (saveOk : Bool) :
    indexProject bs norm (Except.ok []) projects attempts saveOk saveMsg =
      (⟨IStatus.error, "项目中未找到文本文件", none, none, none⟩, none) := rfl

lemma indexProject_save_failed (bs : Nat) (norm saveMsg : String) (blobs : List Blob)
    (projects : ProjectsMap) (attempts : Nat → Nat → Except JsError BatchUploadResponse)
    (hb : blobs.length ≠ 0) :
    indexProject bs norm (Except.ok blobs) projects attempts false saveMsg =
      (⟨IStatus.error, saveMsg, none, none, none⟩, none) := by
  rw [indexProject]
  dsimp only
  rw [if_neg hb]
  rfl

lemma indexProject_ok_eq (bs : Nat) (norm saveMsg : String) (blobs : List Blob)
    (projects : ProjectsMap) (attempts : Nat → Nat → Except JsError BatchUploadResponse)
    (hb : blobs.length ≠ 0) :
    indexProject bs norm (Except.ok blobs) projects attempts true saveMsg =
      (⟨if (ipRes projects norm blobs bs attempts).2.length = 0 then IStatus.success
          else IStatus.partialSuccess,
        if (ipToUpload projects norm blobs).length > 0 then
          "项目已索引，共 " ++ toString (ipAll projects norm blobs bs attempts).length ++
            " 个 blobs (已存在: " ++ toString (ipUnchanged projects norm blobs).length ++
            ", 新增: " ++ toString (ipRes projects norm blobs bs attempts).1.length ++ ")"
        else
          "项目已索引，共 " ++ toString (ipAll projects norm blobs bs attempts).length ++
            " 个 blobs (全部已存在，无需上传)",
        some norm,
        some (ipRes projects norm blobs bs attempts).2,
        some ⟨(ipAll projects norm blobs bs attempts).length,
          (ipUnchanged projects norm blobs).length,
          (ipRes projects norm blobs bs attempts).1.length,
          (ipUnchanged projects norm blobs).length⟩⟩,
       some (setProj projects norm (ipAll projects norm blobs bs attempts))) := by
  rw [indexProject]
  dsimp only
  rw [if_neg hb]
  rfl

/-! ### C10: per-project frame -/

/-- C10: when an indexing pass over `blobs` runs and persists successfully,
the saved mapping is the loaded mapping with only the entry keyed by the
project's normalized path replaced (by `unchanged ++ uploaded`); every other
key's hash list is written back unchanged. -/
theorem frame_per_project (bs : Nat) (norm saveMsg : String) (blobs : List Blob)
    (projects : ProjectsMap) (attempts : Nat → Nat → Except JsError BatchUploadResponse)
    (hb : blobs ≠ []) :
    ∃ m2 : ProjectsMap,
      (indexProject bs norm (Except.ok blobs) projects attempts true saveMsg).2 = some m2 ∧
      (∀ k : String, k ≠ norm → lookupProj m2 k = lookupProj projects k) ∧
      lookupProj m2 norm = some (ipAll projects norm blobs bs attempts) := by
  have hb' : blobs.length ≠ 0 := fun h0 => hb (List.eq_nil_of_length_eq_zero h0)
  refine ⟨setProj projects norm (ipAll projects norm blobs bs attempts), ?_, ?_, ?_⟩
  · rw [indexProject_ok_eq bs norm saveMsg blobs projects attempts hb']
  · intro k hk
    exact lookupProj_setProj_other projects norm _ k hk
  · exact lookupProj_setProj_self projects norm _

/-- Witness for C10 at a concrete store with a second project `/q`: the pass
over `/p` leaves `/q`'s hash list unchanged and rewrites `/p`. -/
theorem frame_per_project_witness :
    (indexProject 1 "/p" (Except.ok [⟨"a", "1", none⟩])
        [("/q", ["qh"])] (fun _ _ => Except.ok ⟨["n1"]⟩) true "s").2 =
      some [("/q", ["qh"]), ("/p", ["n1"])] ∧
    lookupProj [("/q", ["qh"]), ("/p", ["n1"])] "/q" = some ["qh"] ∧
    lookupProj [("/q", ["qh"]), ("/p", ["n1"])] "/p" = some ["n1"] := by
  have hlit : (indexProject 1 "/p" (Except.ok [⟨"a", "1", none⟩])
      [("/q", ["qh"])] (fun _ _ => Except.ok ⟨["n1"]⟩) true "s").2 =
      some [("/q", ["qh"]), ("/p", ["n1"])] := by decide
  obtain ⟨m2, hm2, hother, hself⟩ := frame_per_project 1 "/p" "s" [⟨"a", "1", none⟩]
    [("/q", ["qh"])] (fun _ _ => Except.ok ⟨["n1"]⟩) (by decide)
  have hm2eq : m2 = [("/q", ["qh"]), ("/p", ["n1"])] :=
    Option.some.inj (hm2.symm.trans hlit)
  refine ⟨hlit, ?_, ?_⟩
  · rw [← hm2eq, hother "/q" (by decide)]
    rfl
  · rw [← hm2eq, hself]
    decide

/-! ### C3: status invariant (corrected) -/

/-- C3 counterexample: a pass whose single batch fails returns
`partial_success` (with `failedBatches = [1]` and nothing uploaded), although
under the claim — at least one batch failed but NO other batch succeeded, and
indexing work was attempted — the status would have to be `success`
(the claim's `error` case does not apply either). -/
theorem status_invariant_counterexample :
    (indexProject 1 "/p" (Except.ok [⟨"a", "1", none⟩]) []
        (fun _ _ => Except.error err503) true "s").1.status = IStatus.partialSuccess ∧
    (indexProject 1 "/p" (Except.ok [⟨"a", "1", none⟩]) []
        (fun _ _ => Except.error err503) true "s").1.status ≠ IStatus.success ∧
    (indexProject 1 "/p" (Except.ok [⟨"a", "1", none⟩]) []
        (fun _ _ => Except.error err503) true "s").1.failedBatches = some [1] ∧
    (indexProject 1 "/p" (Except.ok [⟨"a", "1", none⟩]) []
        (fun _ _ => Except.error err503) true "s").1.stats = some ⟨0, 0, 0, 0⟩ := by
  refine ⟨by decide, by decide, by decide, by decide⟩

/-- C3 amended: `indexProject` returns `error` exactly when collection threw,
no blobs were found, or persisting the index failed (the last can happen even
after batches were attempted); when the pass persists successfully it returns
`success` iff `failedBatches` is empty and `partial_success` iff at least one
batch failed — regardless of whether any other batch succeeded. -/
theorem status_invariant_amended :
    (∀ (bs : Nat) (norm saveMsg msg : String) (projects : ProjectsMap)
        (attempts : Nat → Nat → Except JsError BatchUploadResponse) (saveOk : Bool),
      (indexProject bs norm (Except.error msg) projects attempts saveOk saveMsg).1.status =
        IStatus.error) ∧
    (∀ (bs : Nat) (norm saveMsg : String) (projects : ProjectsMap)
        (attempts : Nat → Nat → Except JsError BatchUploadResponse) (saveOk : Bool),
      (indexProject bs norm (Except.ok []) projects attempts saveOk saveMsg).1.status =
        IStatus.error) ∧
    (∀ (bs : Nat) (norm saveMsg : String) (blobs : List Blob) (projects : ProjectsMap)
        (attempts : Nat → Nat → Except JsError BatchUploadResponse),
      blobs ≠ [] →
      (indexProject bs norm (Except.ok blobs) projects attempts false saveMsg).1.status =
        IStatus.error) ∧
    (∀ (bs : Nat) (norm saveMsg : String) (blobs : List Blob) (projects : ProjectsMap)
        (attempts : Nat → Nat → Except JsError BatchUploadResponse),
      blobs ≠ [] →
      (indexProject bs norm (Except.ok blobs) projects attempts true saveMsg).1.status ≠
          IStatus.error ∧
        ((indexProject bs norm (Except.ok blobs) projects attempts true saveMsg).1.status =
            IStatus.success ↔
          (indexProject bs norm (Except.ok blobs) projects attempts true saveMsg).1.failedBatches =
            some []) ∧
        ((indexProject bs norm (Except.ok blobs) projects attempts true saveMsg).1.status =
            IStatus.partialSuccess ↔
          ∃ l, (indexProject bs norm (Except.ok blobs) projects attempts true
              saveMsg).1.failedBatches = some l ∧ l ≠ [])) := by
  refine ⟨?_, ?_, ?_, ?_⟩
  · intro bs norm saveMsg msg projects attempts saveOk
    rw [indexProject_collect_error]
  · intro bs norm saveMsg projects attempts saveOk
    rw [indexProject_no_blobs]
  · intro bs norm saveMsg blobs projects attempts hb
    rw [indexProject_save_failed bs norm saveMsg blobs projects attempts
      (fun h0 => hb (List.eq_nil_of_length_eq_zero h0))]
  · intro bs norm saveMsg blobs projects attempts hb
    have hb' : blobs.length ≠ 0 := fun h0 => hb (List.eq_nil_of_length_eq_zero h0)
    rw [indexProject_ok_eq bs norm saveMsg blobs projects attempts hb']
    dsimp only
    by_cases hf : (ipRes projects norm blobs bs attempts).2.length = 0
    · rw [if_pos hf]
      have hnil : (ipRes projects norm blobs bs attempts).2 = [] :=
        List.eq_nil_of_length_eq_zero hf
      refine ⟨by decide, ?_, ?_⟩
      · simp [hnil]
      · constructor
        · intro hcon
          exact absurd hcon (by decide)
        · rintro ⟨l, hl, hlne⟩
          rw [hnil] at hl
          exact absurd (Option.some.inj hl).symm hlne
    · rw [if_neg hf]
      refine ⟨by decide, ?_, ?_⟩
      · constructor
        · intro hcon
          exact absurd hcon (by decide)
        · intro hl
          have := Option.some.inj hl
          rw [this] at hf
          exact absurd rfl hf
      · constructor
        · intro _
          exact ⟨(ipRes projects norm blobs bs attempts).2, rfl,
            fun hnil => hf (by rw [hnil]; rfl)⟩
        · intro _
          rfl

/-- Witness for C3: the amended theorem instantiated at a concrete successful
single-batch pass. -/
theorem status_invariant_witness :
    (indexProject 1 "/p" (Except.ok [⟨"a", "1", none⟩]) []
        (fun _ _ => Except.ok ⟨["n1"]⟩) true "s").1.status = IStatus.success := by
  have h := (status_invariant_amended.2.2.2 1 "/p" "s" [⟨"a", "1", none⟩] []
    (fun _ _ => Except.ok ⟨["n1"]⟩) (by decide)).2.1
  exact h.mpr (by decide)

/-! ### C2: partial failure containment -/

lemma mem_slice_mem (l : List α) (bs i : Nat) (x : α) (hx : x ∈ batchSlice l bs i) : x ∈ l := by
  rw [batchSlice_eq_take] at hx
  exact List.drop_subset _ _ (List.take_subset _ _ hx)

/-- C2: after all batches are attempted, the saved mapping keys the project to
`unchanged ++ uploaded`, where `uploaded` is the concatenation of the
identifier lists of the successful batches; batch `i+1` is recorded in
`failedBatches` exactly when its retried request ultimately threw or its
response carried no identifiers (every batch in range is attempted and
classified); the hashes of each batch are the corresponding slice of the
`new` hash list; and — provided each successful batch's returned identifiers
lie within its own batch — no hash of a failed batch appears in the persisted
record. -/
theorem partial_failure_containment (bs : Nat) (norm saveMsg : String) (blobs : List Blob)
    (projects : ProjectsMap) (attempts : Nat → Nat → Except JsError BatchUploadResponse)
    (hbs : 0 < bs) (hb : blobs ≠ []) :
    (ipToUpload projects norm blobs).map (fun b => calculateHash b.path b.content) =
      ipNew projects norm blobs ∧
    (indexProject bs norm (Except.ok blobs) projects attempts true saveMsg).2 =
      some (setProj projects norm
        (ipUnchanged projects norm blobs ++
          (List.range (ipTotal projects norm blobs bs)).flatMap (batchNames attempts))) ∧
    lookupProj
        ((indexProject bs norm (Except.ok blobs) projects attempts true saveMsg).2.getD [])
        norm =
      some (ipUnchanged projects norm blobs ++
        (List.range (ipTotal projects norm blobs bs)).flatMap (batchNames attempts)) ∧
    (indexProject bs norm (Except.ok blobs) projects attempts true saveMsg).1.failedBatches =
      some (((List.range (ipTotal projects norm blobs bs)).filter
          (fun i => (batchNames attempts i).isEmpty)).map (fun i => i + 1)) ∧
    (∀ i, i < ipTotal projects norm blobs bs →
      ((i + 1) ∈ ((indexProject bs norm (Except.ok blobs) projects attempts true
            saveMsg).1.failedBatches).getD [] ↔
        (∃ e, batchCallResult attempts i = Except.error e) ∨
        (∃ r, batchCallResult attempts i = Except.ok r ∧ r.blob_names = []))) ∧
    ((∀ i, i < ipTotal projects norm blobs bs →
        ∀ x ∈ batchNames attempts i, x ∈ batchSlice (ipNew projects norm blobs) bs i) →
      ∀ i, i < ipTotal projects norm blobs bs →
        (batchNames attempts i).isEmpty = true →
        ∀ h ∈ batchSlice (ipNew projects norm blobs) bs i,
          h ∉ ipUnchanged projects norm blobs ++
            (List.range (ipTotal projects norm blobs bs)).flatMap (batchNames attempts)) := by
  have hb' : blobs.length ≠ 0 := fun h0 => hb (List.eq_nil_of_length_eq_zero h0)
  have hflat : (ipRes projects norm blobs bs attempts).1 =
      (List.range (ipTotal projects norm blobs bs)).flatMap (batchNames attempts) := by
    rw [ipRes, runBatches_spec]
  have hfail : (ipRes projects norm blobs bs attempts).2 =
      ((List.range (ipTotal projects norm blobs bs)).filter
        (fun i => (batchNames attempts i).isEmpty)).map (fun i => i + 1) := by
    rw [ipRes, runBatches_spec]
  have hpersist : (indexProject bs norm (Except.ok blobs) projects attempts true saveMsg).2 =
      some (setProj projects norm
        (ipUnchanged projects norm blobs ++
          (List.range (ipTotal projects norm blobs bs)).flatMap (batchNames attempts))) := by
    rw [indexProject_ok_eq bs norm saveMsg blobs projects attempts hb']
    rw [show some (setProj projects norm (ipAll projects norm blobs bs attempts)) =
      some (setProj projects norm (ipUnchanged projects norm blobs ++
        (List.range (ipTotal projects norm blobs bs)).flatMap (batchNames attempts))) from by
      rw [ipAll, hflat]]
  have hnodupNew : (ipNew projects norm blobs).Nodup := by
    rw [ipNew, newHashes]
    exact (buildBlobMap_keys_nodup blobs).filter _
  refine ⟨blobsToUpload_hashes blobs _, hpersist, ?_, ?_, ?_, ?_⟩
  · rw [hpersist, Option.getD_some]
    exact lookupProj_setProj_self projects norm _
  · rw [indexProject_ok_eq bs norm saveMsg blobs projects attempts hb']
    dsimp only
    rw [hfail]
  · intro i hi
    rw [indexProject_ok_eq bs norm saveMsg blobs projects attempts hb']
    dsimp only
    rw [hfail, Option.getD_some]
    constructor
    · intro hmem
      obtain ⟨j, hj, hji⟩ := List.mem_map.mp hmem
      have hji' : j = i := by omega
      subst hji'
      have hjP := (List.mem_filter.mp hj).2
      rw [List.isEmpty_iff] at hjP
      rw [batchNames] at hjP
      rcases hc : batchCallResult attempts j with e | r
      · exact Or.inl ⟨e, rfl⟩
      · rw [hc] at hjP
        dsimp only at hjP
        refine Or.inr ⟨r, rfl, ?_⟩
        by_cases hlen : r.blob_names.length > 0
        · rw [if_pos hlen] at hjP
          rw [hjP] at hlen
          simp at hlen
        · cases hbn : r.blob_names with
          | nil => rfl
          | cons a as => rw [hbn] at hlen; simp at hlen
    · intro hcond
      refine List.mem_map.mpr ⟨i, List.mem_filter.mpr ⟨List.mem_range.mpr hi, ?_⟩, rfl⟩
      rw [List.isEmpty_iff, batchNames]
      rcases hcond with ⟨e, he⟩ | ⟨r, hr, hrempty⟩
      · rw [he]
      · rw [hr]
        dsimp only
        rw [hrempty]
        rfl
  · intro hsub i hi hfailbatch h hslice hmem
    rcases List.mem_append.mp hmem with hleft | hright
    · have hnew : h ∈ ipNew projects norm blobs := mem_slice_mem _ bs i h hslice
      rw [ipNew, newHashes, List.mem_filter] at hnew
      rw [ipUnchanged, unchangedHashes, List.mem_filter] at hleft
      rw [hleft.2] at hnew
      simp at hnew
    · obtain ⟨j, hj, hjmem⟩ := List.mem_flatMap.mp hright
      have hjlt : j < ipTotal projects norm blobs bs := List.mem_range.mp hj
      by_cases hij : j = i
      · subst hij
        rw [List.isEmpty_iff] at hfailbatch
        rw [hfailbatch] at hjmem
        exact absurd hjmem (List.not_mem_nil h)
      · have hjslice := hsub j hjlt h hjmem
        rw [batchSlice_eq_take] at hslice hjslice
        rcases Nat.lt_or_ge j i with hji | hji
        · exact slices_disjoint _ hnodupNew bs hbs j i (by omega) h hjslice hslice
        · exact slices_disjoint _ hnodupNew bs hbs i j (by omega) h hslice hjslice

def c2blobs : List Blob := [⟨"a", "1", none⟩, ⟨"b", "2", none⟩, ⟨"c", "3", none⟩]

/-- Network model for the C2 witness: batch 2 (index 1) always fails with a
503 that exhausts the retries; batches 1 and 3 succeed returning exactly
their own batch's hashes. -/
def c2atts : Nat → Nat → Except JsError BatchUploadResponse :=
  fun i _ =>
    if i = 1 then Except.error err503
    else Except.ok ⟨batchSlice (ipNew [] "/p" c2blobs) 1 i⟩

/-- Witness for C2: with 3 new blobs in batches of 1 where only batch 2
fails, the persisted hash list holds exactly the hashes of blobs 1 and 3 and
`failedBatches = [2]`. -/
theorem partial_failure_witness :
    (indexProject 1 "/p" (Except.ok c2blobs) [] c2atts true "s").1.failedBatches =
      some [2] ∧
    (indexProject 1 "/p" (Except.ok c2blobs) [] c2atts true "s").2 =
      some [("/p", [calculateHash "a" "1", calculateHash "c" "3"])] := by
  obtain ⟨-, h1, -, h2, -, -⟩ :=
    partial_failure_containment 1 "/p" "s" c2blobs [] c2atts (by decide) (by decide)
  constructor
  · rw [h2]
    decide
  · rw [h1]
    decide

/-! ### C9: idempotent re-index -/

lemma ceilDiv_zero (bs : Nat) (hbs : 0 < bs) : ceilDiv 0 bs = 0 := by
  rw [ceilDiv, Nat.zero_add]
  exact Nat.div_eq_of_lt (by omega)

/-- C9: when every batch of the first pass succeeds returning exactly its own
batch's hashes, the first pass persists a hash list whose members are exactly
the computed hash set, with `totalBlobs = |current|`; re-running
`indexProject` on the saved store (the unchanged project indexed twice)
computes an empty `new` set, uploads nothing, reports `newBlobs = 0` with the
same `totalBlobs`, returns `success`, and persists the same hash set again. -/
theorem idempotent_reindex (bs : Nat) (norm saveMsg : String) (blobs : List Blob)
    (projects : ProjectsMap)
    (attempts attempts2 : Nat → Nat → Except JsError BatchUploadResponse)
    (hbs : 0 < bs) (hb : blobs ≠ [])
    (hsucc : ∀ i, i < ipTotal projects norm blobs bs →
      batchCallResult attempts i =
        Except.ok ⟨batchSlice (ipNew projects norm blobs) bs i⟩) :
    (indexProject bs norm (Except.ok blobs) projects attempts true saveMsg).1.status =
      IStatus.success ∧
    (indexProject bs norm (Except.ok blobs) projects attempts true saveMsg).2 =
      some (setProj projects norm (ipAll projects norm blobs bs attempts)) ∧
    (indexProject bs norm (Except.ok blobs) projects attempts true saveMsg).1.stats =
      some ⟨(ipCurrent blobs).length, (ipUnchanged projects norm blobs).length,
        (ipNew projects norm blobs).length, (ipUnchanged projects norm blobs).length⟩ ∧
    (∀ h, h ∈ ipAll projects norm blobs bs attempts ↔ h ∈ ipCurrent blobs) ∧
    ipNew (setProj projects norm (ipAll projects norm blobs bs attempts)) norm blobs = [] ∧
    ipToUpload (setProj projects norm (ipAll projects norm blobs bs attempts)) norm blobs = [] ∧
    (indexProject bs norm (Except.ok blobs)
        (setProj projects norm (ipAll projects norm blobs bs attempts)) attempts2 true
        saveMsg).1.status = IStatus.success ∧
    (indexProject bs norm (Except.ok blobs)
        (setProj projects norm (ipAll projects norm blobs bs attempts)) attempts2 true
        saveMsg).1.stats =
      some ⟨(ipCurrent blobs).length, (ipCurrent blobs).length, 0, (ipCurrent blobs).length⟩ ∧
    (indexProject bs norm (Except.ok blobs)
        (setProj projects norm (ipAll projects norm blobs bs attempts)) attempts2 true
        saveMsg).2 =
      some (setProj (setProj projects norm (ipAll projects norm blobs bs attempts)) norm
        (ipCurrent blobs)) := by
  have hb' : blobs.length ≠ 0 := fun h0 => hb (List.eq_nil_of_length_eq_zero h0)
  have hTot : ipTotal projects norm blobs bs = ceilDiv (ipNew projects norm blobs).length bs := by
    rw [ipTotal, ipToUpload, List.length_map]
  have hnames : ∀ i, i < ipTotal projects norm blobs bs →
      batchNames attempts i = batchSlice (ipNew projects norm blobs) bs i := by
    intro i hi
    rw [batchNames, hsucc i hi]
    dsimp only
    rw [if_pos ?_]
    rw [batchSlice_eq_take]
    rw [hTot] at hi
    exact List.length_pos.mpr (slice_ne_nil _ bs i hbs hi)
  have huploaded : (ipRes projects norm blobs bs attempts).1 = ipNew projects norm blobs := by
    rw [ipRes, runBatches_spec]
    dsimp only
    rw [List.flatMap_def]
    rw [List.map_congr_left (fun i hi => hnames i (List.mem_range.mp hi))]
    rw [List.map_congr_left (fun i _ => batchSlice_eq_take (ipNew projects norm blobs) bs i)]
    rw [hTot]
    exact flatten_chunks bs hbs _ _ (ceilDiv_le_mul _ _ hbs)
  have hfail1 : (ipRes projects norm blobs bs attempts).2 = [] := by
    rw [ipRes, runBatches_spec]
    dsimp only
    rw [List.map_eq_nil]
    refine List.filter_eq_nil.mpr (fun i hi => ?_)
    rw [hnames i (List.mem_range.mp hi), List.isEmpty_iff, batchSlice_eq_take]
    rw [hTot] at hi
    exact slice_ne_nil _ bs i hbs (List.mem_range.mp hi)
  have hAll : ipAll projects norm blobs bs attempts =
      ipUnchanged projects norm blobs ++ ipNew projects norm blobs := by
    rw [ipAll, huploaded]
  have hmemAll : ∀ h, h ∈ ipAll projects norm blobs bs attempts ↔ h ∈ ipCurrent blobs := by
    intro h
    rw [hAll, List.mem_append, ipUnchanged, ipNew, unchangedHashes, newHashes,
      List.mem_filter, List.mem_filter]
    constructor
    · rintro (⟨hm, -⟩ | ⟨hm, -⟩) <;> exact hm
    · intro hm
      cases hc : (ipExisting projects norm).contains h with
      | true => exact Or.inl ⟨hm, rfl⟩
      | false => exact Or.inr ⟨hm, rfl⟩
  have hAllLen : (ipAll projects norm blobs bs attempts).length = (ipCurrent blobs).length := by
    rw [hAll, ipUnchanged, ipNew, unchangedHashes, newHashes]
    exact (List.filter_append_perm _ _).length_eq
  have hex2 : ipExisting (setProj projects norm (ipAll projects norm blobs bs attempts)) norm =
      ipAll projects norm blobs bs attempts := by
    rw [ipExisting, lookupProj_setProj_self, Option.getD_some]
  have hunch2 : ipUnchanged (setProj projects norm (ipAll projects norm blobs bs attempts))
      norm blobs = ipCurrent blobs := by
    rw [ipUnchanged, hex2, unchangedHashes]
    exact List.filter_eq_self.mpr
      (fun h hm => (contains_iff_mem _ _).mpr ((hmemAll h).mpr hm))
  have hnew2 : ipNew (setProj projects norm (ipAll projects norm blobs bs attempts))
      norm blobs = [] := by
    rw [ipNew, hex2, newHashes]
    refine List.filter_eq_nil.mpr (fun h hm => ?_)
    rw [(contains_iff_mem _ _).mpr ((hmemAll h).mpr hm)]
    simp
  have hto2 : ipToUpload (setProj projects norm (ipAll projects norm blobs bs attempts))
      norm blobs = [] := by
    rw [ipToUpload, hnew2]
    rfl
  have htot2 : ipTotal (setProj projects norm (ipAll projects norm blobs bs attempts))
      norm blobs bs = 0 := by
    rw [ipTotal, hto2]
    exact ceilDiv_zero bs hbs
  have hres2 : ipRes (setProj projects norm (ipAll projects norm blobs bs attempts))
      norm blobs bs attempts2 = ([], []) := by
    rw [ipRes, htot2]
    rfl
  have hAll2 : ipAll (setProj projects norm (ipAll projects norm blobs bs attempts))
      norm blobs bs attempts2 = ipCurrent blobs := by
    rw [ipAll, hres2, hunch2]
    exact List.append_nil _
  refine ⟨?_, ?_, ?_, hmemAll, hnew2, hto2, ?_, ?_, ?_⟩
  · rw [indexProject_ok_eq bs norm saveMsg blobs projects attempts hb']
    dsimp only
    rw [hfail1]
    rfl
  · rw [indexProject_ok_eq bs norm saveMsg blobs projects attempts hb']
  · rw [indexProject_ok_eq bs norm saveMsg blobs projects attempts hb']
    dsimp only
    rw [hAllLen, huploaded]
  · rw [indexProject_ok_eq bs norm saveMsg blobs _ attempts2 hb']
    dsimp only
    rw [hres2]
    rfl
  · rw [indexProject_ok_eq bs norm saveMsg blobs _ attempts2 hb']
    dsimp only
    rw [hAll2, hres2, hunch2]
    rfl
  · rw [indexProject_ok_eq bs norm saveMsg blobs _ attempts2 hb']
    dsimp only
    rw [hAll2]

/-- Witness for C9: one blob, batch size 1, first pass uploads its hash,
second pass reports zero new blobs with the same total and persists the same
single-hash set. -/
theorem idempotent_reindex_witness :
    (indexProject 1 "/p" (Except.ok [⟨"a", "1", none⟩]) []
        (fun i _ => Except.ok ⟨batchSlice (ipNew [] "/p" [⟨"a", "1", none⟩]) 1 i⟩)
        true "s").1.status = IStatus.success ∧
    (indexProject 1 "/p" (Except.ok [⟨"a", "1", none⟩])
        (setProj [] "/p" (ipAll [] "/p" [⟨"a", "1", none⟩] 1
          (fun i _ => Except.ok ⟨batchSlice (ipNew [] "/p" [⟨"a", "1", none⟩]) 1 i⟩)))
        (fun _ _ => Except.error err404) true "s").1.stats =
      some ⟨1, 1, 0, 1⟩ := by
  obtain ⟨h1, -, -, -, -, -, -, h8, -⟩ := idempotent_reindex 1 "/p" "s" [⟨"a", "1", none⟩] []
    (fun i _ => Except.ok ⟨batchSlice (ipNew [] "/p" [⟨"a", "1", none⟩]) 1 i⟩)
    (fun _ _ => Except.error err404) (by decide) (by decide)
    (fun i hi => rfl)
  refine ⟨h1, ?_⟩
  rw [h8]
  decide

/-! ### C8: search error channel (corrected) -/

lemma errorTagged_concat (pre m : String) (hpre : pre = "Error:" ++ (pre.drop 6))
    : ErrorTagged (pre ++ m) := by
  refine ⟨pre.drop 6 ++ m, ?_⟩
  rw [← String.append_assoc, ← hpre]

lemma errorTagged_len (s : String) (h : ErrorTagged s) : 6 ≤ s.length := by
  obtain ⟨t, ht⟩ := h
  rw [ht, String.length_append]
  rw [show ("Error:" : String).length = 6 from rfl]
  omega

lemma not_errorTagged_noResults : ¬ ErrorTagged noResultsMessage := by
  rintro ⟨t, ht⟩
  have hd := congrArg String.data ht
  rw [String.data_append] at hd
  rw [show noResultsMessage.data = '未' :: "找到与您的查询相关的代码上下文".data from rfl] at hd
  rw [show ("Error:" : String).data = 'E' :: "rror:".data from rfl] at hd
  rw [List.cons_append] at hd
  injection hd with h1 _
  exact absurd h1 (by decide)

/-- C8 counterexample: when the retrieval call succeeds with a text that
itself begins with `Error:`, `searchContext` returns it verbatim, so the
result is an `Error:`-prefixed string although indexing succeeded, the
persisted hash list is nonempty, and no exception occurred — refuting the
claimed "exactly when". -/
theorem search_error_counterexample :
    searchContext 1 "/p" (Except.ok [⟨"a", "1", none⟩]) []
        (fun _ _ => Except.ok ⟨["n1"]⟩) true "s"
        (fun _ => Except.ok ⟨"Error: boom"⟩) = "Error: boom" ∧
    ErrorTagged "Error: boom" ∧
    (indexProject 1 "/p" (Except.ok [⟨"a", "1", none⟩]) []
        (fun _ _ => Except.ok ⟨["n1"]⟩) true "s").1.status = IStatus.success ∧
    (lookupProj ((indexProject 1 "/p" (Except.ok [⟨"a", "1", none⟩]) []
        (fun _ _ => Except.ok ⟨["n1"]⟩) true "s").2.getD []) "/p").getD [] = ["n1"] ∧
    (retryRequest (fun _ => Except.ok (⟨"Error: boom"⟩ : SearchResponse)) 3 2000).1 =
      Except.ok ⟨"Error: boom"⟩ := by
  refine ⟨by decide, ⟨" boom", by decide⟩, by decide, by decide, by decide⟩

/-- C8 amended: `searchContext` always returns a string (all exceptions are
caught); provided the successful-retrieval text does not itself begin with
`Error:`, the result is `Error:`-prefixed exactly when indexing reports
`error`, when the just-persisted hash list for the project is empty, or when
the retrieval request ultimately throws (`partial_success` proceeds to
retrieval); when the retrieval response carries no content the fixed
no-results message is returned, else the retrieval text verbatim. -/
theorem search_error_channel_amended (bs : Nat) (norm saveMsg : String)
    (collected : Except String (List Blob)) (projects : ProjectsMap)
    (attempts : Nat → Nat → Except JsError BatchUploadResponse) (saveOk : Bool)
    (retrievalAttempts : Nat → Except JsError SearchResponse)
    (hretr : ∀ r, (retryRequest retrievalAttempts 3 2000).1 = Except.ok r →
      ¬ ErrorTagged r.formatted_retrieval) :
    (ErrorTagged (searchContext bs norm collected projects attempts saveOk saveMsg
        retrievalAttempts) ↔
      ((indexProject bs norm collected projects attempts saveOk saveMsg).1.status =
          IStatus.error ∨
        (lookupProj ((indexProject bs norm collected projects attempts saveOk
            saveMsg).2.getD projects) norm).getD [] = [] ∨
        ∃ e, (retryRequest retrievalAttempts 3 2000).1 = Except.error e)) ∧
    (∀ r, (retryRequest retrievalAttempts 3 2000).1 = Except.ok r →
      (indexProject bs norm collected projects attempts saveOk saveMsg).1.status ≠
        IStatus.error →
      (lookupProj ((indexProject bs norm collected projects attempts saveOk
          saveMsg).2.getD projects) norm).getD [] ≠ [] →
      (r.formatted_retrieval = "" →
        searchContext bs norm collected projects attempts saveOk saveMsg retrievalAttempts =
          noResultsMessage) ∧
      (r.formatted_retrieval ≠ "" →
        searchContext bs norm collected projects attempts saveOk saveMsg retrievalAttempts =
          r.formatted_retrieval)) := by
  by_cases hstatus : (indexProject bs norm collected projects attempts saveOk
      saveMsg).1.status = IStatus.error
  · have hsc : searchContext bs norm collected projects attempts saveOk saveMsg
        retrievalAttempts =
        "Error: 索引失败. " ++
          (indexProject bs norm collected projects attempts saveOk saveMsg).1.message := by
      rw [searchContext]
      dsimp only
      rw [if_pos hstatus]
    constructor
    · rw [hsc]
      exact iff_of_true (errorTagged_concat _ _ (by decide)) (Or.inl hstatus)
    · intro r _ hne
      exact absurd hstatus hne
  · by_cases hblobs : (lookupProj ((indexProject bs norm collected projects attempts saveOk
        saveMsg).2.getD projects) norm).getD [] = []
    · have hsc : searchContext bs norm collected projects attempts saveOk saveMsg
          retrievalAttempts = "Error: 索引后未找到 blobs" := by
        rw [searchContext]
        dsimp only
        rw [if_neg hstatus, if_pos (by rw [hblobs]; rfl)]
      constructor
      · rw [hsc]
        exact iff_of_true ⟨" 索引后未找到 blobs", by decide⟩ (Or.inr (Or.inl hblobs))
      · intro r _ _ hblobs'
        exact absurd hblobs hblobs'
    · have hlen : ¬((lookupProj ((indexProject bs norm collected projects attempts saveOk
          saveMsg).2.getD projects) norm).getD []).length = 0 :=
        fun h0 => hblobs (List.eq_nil_of_length_eq_zero h0)
      rcases hr : (retryRequest retrievalAttempts 3 2000).1 with e | r
      · have hsc : searchContext bs norm collected projects attempts saveOk saveMsg
            retrievalAttempts = "Error: " ++ e.message := by
          rw [searchContext]
          dsimp only
          rw [if_neg hstatus, if_neg hlen, hr]
        constructor
        · rw [hsc]
          exact iff_of_true (errorTagged_concat _ _ (by decide)) (Or.inr (Or.inr ⟨e, rfl⟩))
        · intro r' hr' _ _
          exact absurd hr' (by simp)
      · have hnotag := hretr r hr
        by_cases hfmt : r.formatted_retrieval = ""
        · have hsc : searchContext bs norm collected projects attempts saveOk saveMsg
              retrievalAttempts = noResultsMessage := by
            rw [searchContext]
            dsimp only
            rw [if_neg hstatus, if_neg hlen, hr]
            dsimp only
            rw [if_pos hfmt]
          constructor
          · rw [hsc]
            refine iff_of_false not_errorTagged_noResults ?_
            rintro (h | h | ⟨e, he⟩)
            · exact hstatus h
            · exact hblobs h
            · exact absurd he (by simp)
          · intro r' hr' _ _
            have hrr : r = r' := Except.ok.inj hr'
            subst hrr
            exact ⟨fun _ => hsc, fun hne => absurd hfmt hne⟩
        · have hsc : searchContext bs norm collected projects attempts saveOk saveMsg
              retrievalAttempts = r.formatted_retrieval := by
            rw [searchContext]
            dsimp only
            rw [if_neg hstatus, if_neg hlen, hr]
            dsimp only
            rw [if_neg hfmt]
          constructor
          · rw [hsc]
            refine iff_of_false hnotag ?_
            rintro (h | h | ⟨e, he⟩)
            · exact hstatus h
            · exact hblobs h
            · exact absurd he (by simp)
          · intro r' hr' _ _
            have hrr : r = r' := Except.ok.inj hr'
            subst hrr
            exact ⟨fun hmt => absurd hmt hfmt, fun _ => hsc⟩

/-- Witness for C8: the amended equivalence applied to a concrete run where
everything succeeds and the retrieval text is `"hello"` — the result is not
`Error:`-prefixed and is the retrieval text verbatim. -/
theorem search_error_channel_witness :
    ¬ ErrorTagged (searchContext 1 "/p" (Except.ok [⟨"a", "1", none⟩]) []
        (fun _ _ => Except.ok ⟨["n1"]⟩) true "s" (fun _ => Except.ok ⟨"hello"⟩)) ∧
    searchContext 1 "/p" (Except.ok [⟨"a", "1", none⟩]) []
        (fun _ _ => Except.ok ⟨["n1"]⟩) true "s" (fun _ => Except.ok ⟨"hello"⟩) = "hello" := by
  have hretr : ∀ r : SearchResponse,
      (retryRequest (fun _ => Except.ok (⟨"hello"⟩ : SearchResponse)) 3 2000).1 =
        Except.ok r → ¬ ErrorTagged r.formatted_retrieval := by
    intro r hr
    have : r = ⟨"hello"⟩ := by
      have hconc : (retryRequest (fun _ => Except.ok (⟨"hello"⟩ : SearchResponse)) 3 2000).1 =
          Except.ok ⟨"hello"⟩ := by decide
      rw [hconc] at hr
      injection hr with h
      exact h.symm
    rw [this]
    intro htag
    have := errorTagged_len _ htag
    rw [show (SearchResponse.mk "hello").formatted_retrieval.length = 5 from rfl] at this
    omega
  obtain ⟨hiff, hok⟩ := search_error_channel_amended 1 "/p" "s" (Except.ok [⟨"a", "1", none⟩])
    [] (fun _ _ => Except.ok ⟨["n1"]⟩) true (fun _ => Except.ok ⟨"hello"⟩) hretr
  constructor
  · rw [hiff]
    rintro (h | h | ⟨e, he⟩)
    · exact absurd h (by decide)
    · exact absurd h (by decide)
    · have : (retryRequest (fun _ => Except.ok (⟨"hello"⟩ : SearchResponse)) 3 2000).1 =
          Except.ok ⟨"hello"⟩ := by decide
      rw [this] at he
      exact absurd he (by simp)
  · exact ((hok ⟨"hello"⟩ (by decide) (by decide) (by decide)).2 (by decide))

end McpAce
